import Mathlib

/-!
Verification of the in-process job queue of `app/lib/utils/queue.js`
(class `JobQueue`).

The queue is embedded shallowly:

* A `Job` is the record built by `JobQueue.add`; machine `Date` values are
  modelled by a `Nat` logical clock (`QueueState.now`, advanced by `tick`
  steps), and the random string job ids by a fresh-`Nat` counter
  (`QueueState.nextId`); the spec only requires ids to be unique.
* The four internal arrays `jobs` (waiting), `processing`, `completed`,
  `failed` are lists of `Job` records.  The source mutates one shared job
  object held in exactly one array; the embedding moves the record between
  the lists, which is observably the same thing.
* The JavaScript event loop is modelled by a labelled transition system
  `Step`: each step is one synchronous burst of the source code —
  a `process` (handler registration), an `add` call (which runs
  `startProcessing` synchronously before returning), a `setTimeout`
  callback firing (`timerFired`), the resumption of `processJob` after
  `await handler(...)` settles (`handlerResolved`), a `cleanup` call, or
  the passage of wall-clock time (`tick`).  A job sitting inside a pending
  `setTimeout` lives in `timers` (with its due time); a job whose handler
  is currently awaited has its id in `pending`.
* Handlers are opaque: an environment `HandlerEnv` says, per job type and
  per value of `job.attempts` at invocation time, whether the awaited
  handler fulfils or rejects and with which result / error message.
  Whether a handler is registered at all is queue state (`handlers`),
  mutated by `JobQueue.process`.
* `isProcessing` of the source is a re-entrancy guard of the synchronous
  loop; between steps it is always `false`, so it is not part of the state.
-/

set_option linter.unusedVariables false

/-- Job status strings of the source: 'waiting' | 'processing' | 'completed'
| 'failed'.  These four are the only values the queue itself ever writes. -/
inductive Status where
  | waiting
  | processing
  | completed
  | failed
deriving DecidableEq, Repr

/-- The job record constructed in `JobQueue.add` (queue.js lines 28-39) and
mutated by `processJob`.  Timestamps are `Option Nat`: `none` models the
field being absent (`undefined`) before it is first assigned. -/
structure Job where
  id : Nat
  jobType : String
  data : String
  status : Status
  priority : Int
  attempts : Nat
  maxAttempts : Nat
  delay : Nat
  createdAt : Nat
  startedAt : Option Nat := none
  completedAt : Option Nat := none
  failedAt : Option Nat := none
  result : Option String := none
  error : Option String := none
  errorStack : Option String := none
deriving DecidableEq, Repr

/-- The `options` argument of `JobQueue.add`.  Each field is `some v` when
the corresponding key is present in the options object.  Because the source
spreads `...options` into the job literal AFTER the default fields, a
present key always wins, even with a falsy value (`{maxAttempts: 0}`), and
undocumented keys such as `status` and `attempts` override the freshly
initialised fields.  The model carries exactly the keys the claims need. -/
structure AddOptions where
  priority : Option Int := none
  maxAttempts : Option Nat := none
  delay : Option Nat := none
  status : Option Status := none
  attempts : Option Nat := none
deriving DecidableEq, Repr

/-- Behaviour of the registered asynchronous handlers, per job type and per
value of `job.attempts` at the moment the handler is invoked: does the
awaited promise fulfil, and with what result / rejection message. -/
structure HandlerEnv where
  succeeds : String → Nat → Bool
  resultOf : String → Nat → String
  errorOf : String → Nat → String

/-- One `JobQueue` instance.  `jobs`/`processing`/`completed`/`failed` are
the source arrays; `handlers` holds the registered job types; `timers` holds
(dueTime, job) pairs for jobs captured inside a pending `setTimeout`
callback (queue.js lines 65-71); `pending` holds ids of jobs whose handler
promise is currently awaited; `nextId` is the id supply; `now` the clock. -/
structure QueueState where
  name : String
  concurrency : Nat
  jobs : List Job
  processing : List Job
  completed : List Job
  failed : List Job
  handlers : List String
  timers : List (Nat × Job)
  pending : List Nat
  nextId : Nat
  now : Nat
deriving DecidableEq, Repr

/-- `new JobQueue(name, concurrency)`. -/
def initQueue (name : String) (concurrency : Nat) : QueueState :=
  { name := name
    concurrency := concurrency
    jobs := []
    processing := []
    completed := []
    failed := []
    handlers := []
    timers := []
    pending := []
    nextId := 0
    now := 0 }

namespace JobQueue

/-- `process(jobType, handler)`: registers a handler for a job type.  Only
presence matters to the queue logic (`this.handlers.get(job.type)` is
tested for truthiness); the handler function itself lives in `HandlerEnv`. -/
def process (st : QueueState) (jobType : String) : QueueState :=
  { st with handlers := jobType :: st.handlers }

/-- The message of the error thrown in `processJob` when no handler is
registered for the job's type (queue.js line 96). -/
def noHandlerMsg (jobType : String) : String :=
  "No handler registered for job type: " ++ jobType

/-- The job literal of `JobQueue.add` (queue.js lines 28-39): defaults
first, then `...options` overriding every present key.  Note the
`options.x || default` defaults are themselves overridden by the spread, so
a present falsy value (e.g. `maxAttempts: 0`) survives. -/
def mkJob (st : QueueState) (jobType data : String) (o : AddOptions) : Job :=
  { id := st.nextId
    jobType := jobType
    data := data
    status := o.status.getD Status.waiting
    priority := o.priority.getD 0
    attempts := o.attempts.getD 0
    maxAttempts := o.maxAttempts.getD 3
    delay := o.delay.getD 0
    createdAt := st.now }

/-- Stable insertion into a descending-priority list: the new job goes
before the first strictly lower priority entry, after equal priorities. -/
def insertJob (j : Job) : List Job → List Job
  | [] => [j]
  | k :: rest => if j.priority < k.priority then k :: insertJob j rest else j :: k :: rest

/-- `this.jobs.sort((a, b) => b.priority - a.priority)` (queue.js line 42):
a stable sort by descending priority.  ECMAScript `Array.prototype.sort`
is required to be stable, and every stable sort produces the same list, so
this insertion sort is extensionally the source's sort. -/
def sortJobs : List Job → List Job
  | [] => []
  | j :: rest => insertJob j (sortJobs rest)

/-- The job record as stamped by the synchronous prefix of `processJob`
(queue.js lines 82-84): pushed to `processing`, status `processing`,
`startedAt` set. -/
def dispatchedJob (st : QueueState) (j : Job) : Job :=
  { j with status := Status.processing, startedAt := some st.now }

/-- The job record after the synchronous no-handler throw/catch when the
incremented `attempts` reaches `maxAttempts` (queue.js lines 115-140):
terminal failure.  `startedAt` was stamped before the throw. -/
def noHandlerFailedJob (st : QueueState) (j : Job) : Job :=
  { j with
    status := Status.failed
    startedAt := some st.now
    attempts := j.attempts + 1
    error := some (noHandlerMsg j.jobType)
    errorStack := some (noHandlerMsg j.jobType)
    failedAt := some st.now }

/-- The job record after the synchronous no-handler throw/catch when a
retry remains (queue.js lines 141-156): re-queued with exponential backoff
`2 ^ attempts * 1000` ms computed from the just-incremented `attempts`. -/
def noHandlerRetryJob (st : QueueState) (j : Job) : Job :=
  { j with
    status := Status.waiting
    startedAt := some st.now
    attempts := j.attempts + 1
    delay := 2 ^ (j.attempts + 1) * 1000
    error := some (noHandlerMsg j.jobType)
    errorStack := some (noHandlerMsg j.jobType) }

/-- The `while` loop of `startProcessing` (queue.js lines 61-75), fused
with the synchronous prefix of `processJob` for each dispatched job.  The
first list argument is the waiting array being consumed by `shift()`.

Per iteration, while a concurrency slot is free:
* a job with `delay > 0` is captured in a `setTimeout` (due `now + delay`);
* otherwise, with a registered handler, the job moves to `processing`
  (status `processing`, `startedAt` stamped) and the handler is awaited
  (id recorded in `pending`);
* otherwise `processJob` throws and catches `noHandlerMsg` synchronously:
  `attempts` is incremented and the job either fails terminally or is
  re-inserted at the front with backoff delay `2^attempts * 1000` — and the
  very next loop iteration then moves that re-inserted job (its delay now
  positive) into a `setTimeout`; the embedding fuses those two iterations.

The recursion never re-reads `st.jobs`; the final value of the waiting
array is written back on exit, as with the source's in-place `shift`s. -/
def processLoop : List Job → QueueState → QueueState
  | [], st => { st with jobs := [] }
  | j :: rest, st =>
    if st.processing.length < st.concurrency then
      if 0 < j.delay then
        processLoop rest { st with timers := st.timers ++ [(st.now + j.delay, j)] }
      else if st.handlers.contains j.jobType then
        processLoop rest
          { st with
            processing := st.processing ++ [dispatchedJob st j]
            pending := st.pending ++ [j.id] }
      else if j.maxAttempts ≤ j.attempts + 1 then
        processLoop rest { st with failed := st.failed ++ [noHandlerFailedJob st j] }
      else
        processLoop rest
          { st with
            timers := st.timers ++
              [(st.now + 2 ^ (j.attempts + 1) * 1000, noHandlerRetryJob st j)] }
    else { st with jobs := j :: rest }

/-- `startProcessing()` (queue.js lines 56-78): runs the dispatch loop over
the current waiting array.  The body of this `async` function contains no
`await`, so a call runs to completion synchronously. -/
def startProcessing (st : QueueState) : QueueState :=
  processLoop st.jobs st

/-- `add(jobType, data, options)` (queue.js lines 27-53): build the job,
push it, stable-sort by descending priority, then run `startProcessing`
synchronously.  The state returned is the state at the moment `add`
returns to its caller; the returned job handle is the record with id
`st.nextId`, wherever the loop left it. -/
def add (st : QueueState) (jobType data : String) (o : AddOptions) : QueueState :=
  startProcessing
    { st with
      jobs := sortJobs (st.jobs ++ [mkJob st jobType data o])
      nextId := st.nextId + 1 }

/-- The `setTimeout` callback of `startProcessing` (queue.js lines 66-70)
firing for the timer holding job `id`: `job.delay = 0`, `unshift` onto the
waiting array, `startProcessing()`. -/
def timerFired (st : QueueState) (id : Nat) : QueueState :=
  match st.timers.find? (fun p => p.2.id == id) with
  | none => st
  | some p =>
    startProcessing
      { st with
        timers := st.timers.filter (fun q => q.2.id ≠ id)
        jobs := { p.2 with delay := 0 } :: st.jobs }

/-- The job record written on handler fulfilment (queue.js lines 99-106).
`attempts` is NOT incremented on the success path, and `error`/`errorStack`
left over from earlier failed attempts are not cleared. -/
def completedJob (env : HandlerEnv) (st : QueueState) (j : Job) : Job :=
  { j with
    status := Status.completed
    result := some (env.resultOf j.jobType j.attempts)
    completedAt := some st.now }

/-- The job record written on handler rejection once the incremented
`attempts` reaches `maxAttempts` (queue.js lines 115-140). -/
def failedJob (env : HandlerEnv) (st : QueueState) (j : Job) : Job :=
  { j with
    status := Status.failed
    attempts := j.attempts + 1
    error := some (env.errorOf j.jobType j.attempts)
    errorStack := some (env.errorOf j.jobType j.attempts)
    failedAt := some st.now }

/-- The job record written on handler rejection with a retry remaining
(queue.js lines 141-156): backoff `2 ^ attempts * 1000` ms from the
just-incremented `attempts`. -/
def retryJob (env : HandlerEnv) (st : QueueState) (j : Job) : Job :=
  { j with
    status := Status.waiting
    attempts := j.attempts + 1
    delay := 2 ^ (j.attempts + 1) * 1000
    error := some (env.errorOf j.jobType j.attempts)
    errorStack := some (env.errorOf j.jobType j.attempts) }

/-- Resumption of `processJob` (queue.js lines 99-161) once the awaited
handler promise settles for the job with this id.  Fulfilment: the record
becomes `completedJob` and moves to the completed array.  Rejection:
terminal failure (`failedJob`) when `attempts + 1 >= maxAttempts`,
otherwise re-insertion at the FRONT of the waiting array (`unshift`) as
`retryJob`.  Both paths end with `startProcessing()`. -/
def handlerResolved (env : HandlerEnv) (st : QueueState) (id : Nat) : QueueState :=
  match st.processing.find? (fun j => j.id == id) with
  | none => st
  | some j =>
    let st₁ : QueueState :=
      { st with
        processing := st.processing.filter (fun k => k.id ≠ id)
        pending := st.pending.filter (fun i => i ≠ id) }
    if env.succeeds j.jobType j.attempts then
      startProcessing { st₁ with completed := st₁.completed ++ [completedJob env st j] }
    else if j.maxAttempts ≤ j.attempts + 1 then
      startProcessing { st₁ with failed := st₁.failed ++ [failedJob env st j] }
    else
      startProcessing { st₁ with jobs := retryJob env st j :: st₁.jobs }

/-- Wall-clock time passing (advances `Date.now()`). -/
def tick (st : QueueState) (dt : Nat) : QueueState :=
  { st with now := st.now + dt }

/-- `getStats()` (queue.js lines 168-177). -/
structure Stats where
  name : String
  waiting : Nat
  processing : Nat
  completed : Nat
  failed : Nat
  concurrency : Nat
deriving DecidableEq, Repr

/-- `getStats()` (queue.js lines 168-177): point-in-time counts of the four
arrays. -/
def getStats (st : QueueState) : Stats :=
  { name := st.name
    waiting := st.jobs.length
    processing := st.processing.length
    completed := st.completed.length
    failed := st.failed.length
    concurrency := st.concurrency }

/-- `getJob(jobId)` (queue.js lines 180-187): linear search over the four
arrays — and over nothing else; jobs captured in a pending `setTimeout`
are in none of the four arrays. -/
def getJob (st : QueueState) (id : Nat) : Option Job :=
  (st.jobs ++ st.processing ++ st.completed ++ st.failed).find? (fun j => j.id == id)

/-- Comparison `t < cutoff` on a possibly-absent timestamp: in the source
`undefined < cutoff` is `false` (NaN comparison). -/
def timeLtB : Option Nat → Nat → Bool
  | some t, c => t < c
  | none, _ => false

/-- Comparison `t >= cutoff` on a possibly-absent timestamp; `false` when
the timestamp is absent. -/
def timeGeB : Option Nat → Nat → Bool
  | some t, c => c ≤ t
  | none, _ => false

/-- `cleanup(maxAge)` (queue.js lines 190-211; default `maxAge` is 24h =
86400000 ms): drop completed jobs with `completedAt < now - maxAge` and
failed jobs with `failedAt < now - maxAge`; return how many were dropped
together with the new state.  (`Date.now() - maxAge` is clamped at 0 by
`Nat` subtraction; a negative JavaScript cutoff removes nothing, and so
does cutoff 0.) -/
def cleanup (st : QueueState) (maxAge : Nat) : Nat × QueueState :=
  let cutoff := st.now - maxAge
  ((st.completed.filter (fun j => timeLtB j.completedAt cutoff)).length +
     (st.failed.filter (fun j => timeLtB j.failedAt cutoff)).length,
   { st with
     completed := st.completed.filter (fun j => timeGeB j.completedAt cutoff)
     failed := st.failed.filter (fun j => timeGeB j.failedAt cutoff) })

/-- Every job record owned by the queue, including the ones captured inside
pending `setTimeout` callbacks (which the source still references from the
timer closure even though they sit in no array). -/
def allJobsList (st : QueueState) : List Job :=
  st.jobs ++ st.processing ++ st.completed ++ st.failed ++ st.timers.map Prod.snd

/-- Ids of every job record owned by the queue. -/
def allIds (st : QueueState) : List Nat :=
  (allJobsList st).map Job.id

/-- The live reference `add` returned for a job id: finds the record in
whatever location it currently occupies, including timer closures. -/
def jobRef (st : QueueState) (id : Nat) : Option Job :=
  (allJobsList st).find? (fun j => j.id == id)

end JobQueue

/-- One observable transition of the queue: a synchronous burst of queue
code triggered by an API call, a timer firing (no earlier than its due
time), a handler promise settling, a cleanup sweep, or time passing.
`okAdd` restricts which `add` calls the modelled callers make (instantiate
with `anyAdd` for no restriction). -/
inductive Step (env : HandlerEnv) (okAdd : QueueState → String → AddOptions → Prop) :
    QueueState → QueueState → Prop where
  | register (st : QueueState) (jobType : String) :
      Step env okAdd st (JobQueue.process st jobType)
  | enqueue (st : QueueState) (jobType data : String) (o : AddOptions) :
      okAdd st jobType o → Step env okAdd st (JobQueue.add st jobType data o)
  | timer (st : QueueState) (p : Nat × Job) :
      p ∈ st.timers → p.1 ≤ st.now → Step env okAdd st (JobQueue.timerFired st p.2.id)
  | settle (st : QueueState) (id : Nat) :
      id ∈ st.pending → Step env okAdd st (JobQueue.handlerResolved env st id)
  | tick (st : QueueState) (dt : Nat) :
      Step env okAdd st (JobQueue.tick st dt)
  | sweep (st : QueueState) (maxAge : Nat) :
      Step env okAdd st (JobQueue.cleanup st maxAge).2

/-- No restriction on `add` calls. -/
def anyAdd : QueueState → String → AddOptions → Prop := fun _ _ _ => True

/-- States reachable from `init` by queue transitions. -/
def Reachable (env : HandlerEnv) (okAdd : QueueState → String → AddOptions → Prop)
    (init st : QueueState) : Prop :=
  Relation.ReflTransGen (Step env okAdd) init st

/-! ## Basic lemmas about the dispatch loop -/

namespace JobQueue

/-- Lists with equal multiset coercions are permutations. -/
theorem permOfMultisetEq {α : Type} {L R : List α} (h : (L : Multiset α) = (R : Multiset α)) :
    List.Perm L R :=
  Multiset.coe_eq_coe.mp h

theorem processLoop_name (l : List Job) (st : QueueState) :
    (processLoop l st).name = st.name := by
  induction l generalizing st with
  | nil => rfl
  | cons j rest ih => simp only [processLoop]; split_ifs <;> simp [ih]

theorem processLoop_concurrency (l : List Job) (st : QueueState) :
    (processLoop l st).concurrency = st.concurrency := by
  induction l generalizing st with
  | nil => rfl
  | cons j rest ih => simp only [processLoop]; split_ifs <;> simp [ih]

theorem processLoop_handlers (l : List Job) (st : QueueState) :
    (processLoop l st).handlers = st.handlers := by
  induction l generalizing st with
  | nil => rfl
  | cons j rest ih => simp only [processLoop]; split_ifs <;> simp [ih]

theorem processLoop_nextId (l : List Job) (st : QueueState) :
    (processLoop l st).nextId = st.nextId := by
  induction l generalizing st with
  | nil => rfl
  | cons j rest ih => simp only [processLoop]; split_ifs <;> simp [ih]

theorem processLoop_now (l : List Job) (st : QueueState) :
    (processLoop l st).now = st.now := by
  induction l generalizing st with
  | nil => rfl
  | cons j rest ih => simp only [processLoop]; split_ifs <;> simp [ih]

/-- The loop never touches the completed array. -/
theorem processLoop_completed (l : List Job) (st : QueueState) :
    (processLoop l st).completed = st.completed := by
  induction l generalizing st with
  | nil => rfl
  | cons j rest ih => simp only [processLoop]; split_ifs <;> simp [ih]

/-- The loop only appends to the processing array. -/
theorem processLoop_processing_grows (l : List Job) (st : QueueState) :
    st.processing <+: (processLoop l st).processing := by
  induction l generalizing st with
  | nil => exact List.prefix_refl _
  | cons j rest ih =>
    simp only [processLoop]
    split_ifs
    · refine List.IsPrefix.trans ?_ (ih _)
      exact List.prefix_refl _
    · refine List.IsPrefix.trans ?_ (ih _)
      exact List.prefix_append _ _
    · refine List.IsPrefix.trans ?_ (ih _)
      exact List.prefix_refl _
    · refine List.IsPrefix.trans ?_ (ih _)
      exact List.prefix_refl _
    · exact List.prefix_refl _

/-- The loop only appends to the failed array. -/
theorem processLoop_failed_grows (l : List Job) (st : QueueState) :
    st.failed <+: (processLoop l st).failed := by
  induction l generalizing st with
  | nil => exact List.prefix_refl _
  | cons j rest ih =>
    simp only [processLoop]
    split_ifs
    · refine List.IsPrefix.trans ?_ (ih _)
      exact List.prefix_refl _
    · refine List.IsPrefix.trans ?_ (ih _)
      exact List.prefix_refl _
    · refine List.IsPrefix.trans ?_ (ih _)
      exact List.prefix_append _ _
    · refine List.IsPrefix.trans ?_ (ih _)
      exact List.prefix_refl _
    · exact List.prefix_refl _

/-- The loop only appends to the timer list. -/
theorem processLoop_timers_grows (l : List Job) (st : QueueState) :
    st.timers <+: (processLoop l st).timers := by
  induction l generalizing st with
  | nil => exact List.prefix_refl _
  | cons j rest ih =>
    simp only [processLoop]
    split_ifs
    · refine List.IsPrefix.trans ?_ (ih _)
      exact List.prefix_append _ _
    · refine List.IsPrefix.trans ?_ (ih _)
      exact List.prefix_refl _
    · refine List.IsPrefix.trans ?_ (ih _)
      exact List.prefix_refl _
    · refine List.IsPrefix.trans ?_ (ih _)
      exact List.prefix_append _ _
    · exact List.prefix_refl _

/-- The loop only appends to the pending-handler list. -/
theorem processLoop_pending_grows (l : List Job) (st : QueueState) :
    st.pending <+: (processLoop l st).pending := by
  induction l generalizing st with
  | nil => exact List.prefix_refl _
  | cons j rest ih =>
    simp only [processLoop]
    split_ifs
    · refine List.IsPrefix.trans ?_ (ih _)
      exact List.prefix_refl _
    · refine List.IsPrefix.trans ?_ (ih _)
      exact List.prefix_append _ _
    · refine List.IsPrefix.trans ?_ (ih _)
      exact List.prefix_refl _
    · refine List.IsPrefix.trans ?_ (ih _)
      exact List.prefix_refl _
    · exact List.prefix_refl _

end JobQueue

namespace JobQueue

/-- The job records the dispatch loop is juggling: the not-yet-shifted part
of the waiting array together with the records held elsewhere. -/
def looseJobs (l : List Job) (st : QueueState) : List Job :=
  l ++ st.processing ++ st.completed ++ st.failed ++ st.timers.map Prod.snd

theorem allJobsList_eq_looseJobs (st : QueueState) : allJobsList st = looseJobs st.jobs st := rfl

/-- Moving one element from the head to the back of the fifth component is
a permutation. -/
theorem perm_shapeE {α : Type} (x : α) (A B C D E : List α) :
    List.Perm (A ++ B ++ C ++ D ++ (E ++ [x])) (x :: (A ++ B ++ C ++ D ++ E)) := by
  apply permOfMultisetEq
  simp only [← Multiset.cons_coe, ← Multiset.coe_add]
  simp only [← Multiset.singleton_add]
  simp only [Multiset.coe_nil, add_zero]
  abel

/-- Moving one element from the head to the back of the second component is
a permutation. -/
theorem perm_shapeB {α : Type} (x : α) (A B C D E : List α) :
    List.Perm (A ++ (B ++ [x]) ++ C ++ D ++ E) (x :: (A ++ B ++ C ++ D ++ E)) := by
  apply permOfMultisetEq
  simp only [← Multiset.cons_coe, ← Multiset.coe_add]
  simp only [← Multiset.singleton_add]
  simp only [Multiset.coe_nil, add_zero]
  abel

/-- Moving one element from the head to the back of the fourth component is
a permutation. -/
theorem perm_shapeD {α : Type} (x : α) (A B C D E : List α) :
    List.Perm (A ++ B ++ C ++ (D ++ [x]) ++ E) (x :: (A ++ B ++ C ++ D ++ E)) := by
  apply permOfMultisetEq
  simp only [← Multiset.cons_coe, ← Multiset.coe_add]
  simp only [← Multiset.singleton_add]
  simp only [Multiset.coe_nil, add_zero]
  abel

/-- Moving one element from the back of the first component to the head is
a permutation. -/
theorem perm_shapeA {α : Type} (x : α) (A B C D E : List α) :
    List.Perm ((A ++ [x]) ++ B ++ C ++ D ++ E) (x :: (A ++ B ++ C ++ D ++ E)) := by
  apply permOfMultisetEq
  simp only [← Multiset.cons_coe, ← Multiset.coe_add]
  simp only [← Multiset.singleton_add]
  simp only [Multiset.coe_nil, add_zero]
  abel

theorem insertJob_perm (j : Job) (l : List Job) : List.Perm (insertJob j l) (j :: l) := by
  induction l with
  | nil => exact List.Perm.refl _
  | cons k rest ih =>
    simp only [insertJob]
    split_ifs
    · exact (ih.cons k).trans (List.Perm.swap j k rest)
    · exact List.Perm.refl _

theorem sortJobs_perm (l : List Job) : List.Perm (sortJobs l) l := by
  induction l with
  | nil => exact List.Perm.refl _
  | cons j rest ih => exact (insertJob_perm j (sortJobs rest)).trans (ih.cons j)

/-- Removing the unique element with a given image under `f` by filtering is
the same as erasing it, up to permutation. -/
theorem nodup_filter_ne_perm {α β : Type} [DecidableEq β] (f : α → β) :
    ∀ (L : List α) (x : α), x ∈ L → (L.map f).Nodup →
      List.Perm L (x :: L.filter (fun y => f y ≠ f x))
  | [], x, hx, _ => absurd hx (List.not_mem_nil x)
  | z :: R, x, hx, hnd => by
    have hndR : (R.map f).Nodup := (List.nodup_cons.mp (by simpa using hnd)).2
    have hzR : f z ∉ R.map f := (List.nodup_cons.mp (by simpa using hnd)).1
    rcases List.mem_cons.mp hx with hxz | hxR
    · subst hxz
      have hfilter : R.filter (fun y => !decide (f y = f x)) = R := by
        apply List.filter_eq_self.mpr
        intro y hy
        simp only [Bool.not_eq_true', decide_eq_false_iff_not]
        intro hfe
        exact hzR (hfe ▸ List.mem_map_of_mem f hy)
      simp only [List.filter_cons]
      simp only [ne_eq]
      simp [hfilter]
    · have hfx : f z ≠ f x := by
        intro he
        exact hzR (he ▸ List.mem_map_of_mem f hxR)
      have ih := nodup_filter_ne_perm f R x hxR hndR
      have hcond : (decide ¬(f z = f x)) = true := by simp [hfx]
      simp only [List.filter_cons, ne_eq, hcond, if_true]
      refine List.Perm.trans (ih.cons z) ?_
      refine List.Perm.trans (List.Perm.swap x z _) ?_
      apply List.Perm.cons
      apply List.Perm.cons
      apply List.Perm.refl

end JobQueue

namespace JobQueue

/-- Wellformedness of the queue data while the dispatch loop is running;
`l` plays the role of the waiting array (`InvCore` is the special case
`l = st.jobs`).  The clauses: pending handler ids are exactly the ids of
the processing array; the concurrency bound holds; ids are globally
distinct and below the id supply; timer-captured jobs have positive delay;
and each of the processing/completed/failed arrays only holds records with
the matching status and timestamp. -/
structure LoopInv (l : List Job) (st : QueueState) : Prop where
  pendEq : st.pending = st.processing.map Job.id
  procBound : st.processing.length ≤ st.concurrency
  nodup : ((looseJobs l st).map Job.id).Nodup
  fresh : ∀ j ∈ looseJobs l st, j.id < st.nextId
  timerDelay : ∀ p ∈ st.timers, 0 < p.2.delay
  procStatus : ∀ j ∈ st.processing, j.status = Status.processing ∧ j.startedAt.isSome = true
  compStatus : ∀ j ∈ st.completed, j.status = Status.completed ∧ j.completedAt.isSome = true
  failStatus : ∀ j ∈ st.failed, j.status = Status.failed ∧ j.failedAt.isSome = true

/-- Wellformedness of a queue state between event-loop turns. -/
def InvCore (st : QueueState) : Prop := LoopInv st.jobs st

theorem processLoop_inv (l : List Job) (st : QueueState) (h : LoopInv l st) :
    InvCore (processLoop l st) := by
  induction l generalizing st with
  | nil =>
    exact ⟨h.pendEq, h.procBound, h.nodup, h.fresh, h.timerDelay,
      h.procStatus, h.compStatus, h.failStatus⟩
  | cons j rest ih =>
    simp only [processLoop]
    split_ifs with h1 h2 h3 h4
    · -- delayed job captured in a setTimeout
      apply ih
      have hperm : List.Perm
          (looseJobs rest { st with timers := st.timers ++ [(st.now + j.delay, j)] })
          (j :: looseJobs rest st) := by
        have e : looseJobs rest { st with timers := st.timers ++ [(st.now + j.delay, j)] } =
            rest ++ st.processing ++ st.completed ++ st.failed ++
              (st.timers.map Prod.snd ++ [j]) := by
          simp [looseJobs]
        rw [e]
        exact perm_shapeE j rest st.processing st.completed st.failed (st.timers.map Prod.snd)
      refine ⟨h.pendEq, h.procBound, ?_, ?_, ?_, h.procStatus, h.compStatus, h.failStatus⟩
      · exact ((hperm.map Job.id).symm.nodup) h.nodup
      · intro x hx
        rcases List.mem_cons.mp (hperm.mem_iff.mp hx) with hxe | hxm
        · subst hxe
          exact h.fresh _ (List.mem_cons_self _ _)
        · exact h.fresh x (List.mem_cons_of_mem j hxm)
      · intro p hp
        rcases List.mem_append.mp hp with hpo | hpn
        · exact h.timerDelay p hpo
        · have hpe : p = (st.now + j.delay, j) := by simpa using hpn
          subst hpe
          exact h2
    · -- dispatch: job moved to processing, handler awaited
      apply ih
      have hperm : List.Perm
          (looseJobs rest { st with
             processing := st.processing ++ [dispatchedJob st j]
             pending := st.pending ++ [j.id] })
          (dispatchedJob st j :: looseJobs rest st) :=
        perm_shapeB _ rest st.processing st.completed st.failed (st.timers.map Prod.snd)
      refine ⟨?_, ?_, ?_, ?_, h.timerDelay, ?_, h.compStatus, h.failStatus⟩
      · show st.pending ++ [j.id] = (st.processing ++ [dispatchedJob st j]).map Job.id
        rw [h.pendEq, List.map_append]
        rfl
      · show (st.processing ++ [dispatchedJob st j]).length ≤ st.concurrency
        simp only [List.length_append, List.length_singleton]
        omega
      · exact ((hperm.map Job.id).symm.nodup) h.nodup
      · intro x hx
        rcases List.mem_cons.mp (hperm.mem_iff.mp hx) with hxe | hxm
        · subst hxe
          exact h.fresh j (List.mem_cons_self _ _)
        · exact h.fresh x (List.mem_cons_of_mem j hxm)
      · intro x hx
        rcases List.mem_append.mp hx with hxo | hxn
        · exact h.procStatus x hxo
        · have hxe : x = dispatchedJob st j := by simpa using hxn
          subst hxe
          simp [dispatchedJob]
    · -- no handler, attempts exhausted: synchronous terminal failure
      apply ih
      have hperm : List.Perm
          (looseJobs rest { st with failed := st.failed ++ [noHandlerFailedJob st j] })
          (noHandlerFailedJob st j :: looseJobs rest st) :=
        perm_shapeD _ rest st.processing st.completed st.failed (st.timers.map Prod.snd)
      refine ⟨h.pendEq, h.procBound, ?_, ?_, h.timerDelay, h.procStatus, h.compStatus, ?_⟩
      · exact ((hperm.map Job.id).symm.nodup) h.nodup
      · intro x hx
        rcases List.mem_cons.mp (hperm.mem_iff.mp hx) with hxe | hxm
        · subst hxe
          exact h.fresh j (List.mem_cons_self _ _)
        · exact h.fresh x (List.mem_cons_of_mem j hxm)
      · intro x hx
        rcases List.mem_append.mp hx with hxo | hxn
        · exact h.failStatus x hxo
        · have hxe : x = noHandlerFailedJob st j := by simpa using hxn
          subst hxe
          simp [noHandlerFailedJob]
    · -- no handler, retry scheduled: synchronous catch plus setTimeout
      apply ih
      have hperm : List.Perm
          (looseJobs rest { st with
             timers := st.timers ++
               [(st.now + 2 ^ (j.attempts + 1) * 1000, noHandlerRetryJob st j)] })
          (noHandlerRetryJob st j :: looseJobs rest st) := by
        have e : looseJobs rest { st with
             timers := st.timers ++
               [(st.now + 2 ^ (j.attempts + 1) * 1000, noHandlerRetryJob st j)] } =
            rest ++ st.processing ++ st.completed ++ st.failed ++
              (st.timers.map Prod.snd ++ [noHandlerRetryJob st j]) := by
          simp [looseJobs]
        rw [e]
        exact perm_shapeE _ rest st.processing st.completed st.failed (st.timers.map Prod.snd)
      refine ⟨h.pendEq, h.procBound, ?_, ?_, ?_, h.procStatus, h.compStatus, h.failStatus⟩
      · exact ((hperm.map Job.id).symm.nodup) h.nodup
      · intro x hx
        rcases List.mem_cons.mp (hperm.mem_iff.mp hx) with hxe | hxm
        · subst hxe
          exact h.fresh j (List.mem_cons_self _ _)
        · exact h.fresh x (List.mem_cons_of_mem j hxm)
      · intro p hp
        rcases List.mem_append.mp hp with hpo | hpn
        · exact h.timerDelay p hpo
        · have hpe : p = (st.now + 2 ^ (j.attempts + 1) * 1000, noHandlerRetryJob st j) := by
            simpa using hpn
          subst hpe
          show 0 < (noHandlerRetryJob st j).delay
          simp only [noHandlerRetryJob]
          positivity
    · -- concurrency slots exhausted: loop exits with the remainder waiting
      exact ⟨h.pendEq, h.procBound, h.nodup, h.fresh, h.timerDelay,
        h.procStatus, h.compStatus, h.failStatus⟩

end JobQueue

namespace JobQueue

theorem inv_init (n : String) (c : Nat) : InvCore (initQueue n c) := by
  refine ⟨rfl, by simp [initQueue], by simp [looseJobs, allIds, allJobsList, initQueue], ?_, ?_, ?_, ?_, ?_⟩ <;>
    intro x hx <;> simp [looseJobs, initQueue] at hx

theorem inv_process (st : QueueState) (jobType : String) (h : InvCore st) :
    InvCore (process st jobType) :=
  ⟨h.pendEq, h.procBound, h.nodup, h.fresh, h.timerDelay,
   h.procStatus, h.compStatus, h.failStatus⟩

theorem inv_tick (st : QueueState) (dt : Nat) (h : InvCore st) :
    InvCore (tick st dt) :=
  ⟨h.pendEq, h.procBound, h.nodup, h.fresh, h.timerDelay,
   h.procStatus, h.compStatus, h.failStatus⟩

theorem inv_cleanup (st : QueueState) (maxAge : Nat) (h : InvCore st) :
    InvCore (cleanup st maxAge).2 := by
  have hsub : List.Sublist (looseJobs (cleanup st maxAge).2.jobs (cleanup st maxAge).2)
      (looseJobs st.jobs st) :=
    ((((List.Sublist.refl (st.jobs ++ st.processing)).append
      (List.filter_sublist st.completed)).append
      (List.filter_sublist st.failed)).append (List.Sublist.refl (st.timers.map Prod.snd)))
  refine ⟨h.pendEq, h.procBound, ?_, ?_, h.timerDelay, h.procStatus, ?_, ?_⟩
  · exact (hsub.map Job.id).nodup h.nodup
  · intro x hx
    exact h.fresh x (hsub.subset hx)
  · intro x hx
    exact h.compStatus x (List.mem_of_mem_filter hx)
  · intro x hx
    exact h.failStatus x (List.mem_of_mem_filter hx)

end JobQueue

namespace JobQueue

/-- Appending a freshly-numbered job to the waiting array and stable-sorting
preserves wellformedness; the id supply moves past the new id. -/
theorem inv_add (st : QueueState) (jobType data : String) (o : AddOptions) (h : InvCore st) :
    InvCore (add st jobType data o) := by
  apply processLoop_inv
  have hperm : List.Perm
      (looseJobs (sortJobs (st.jobs ++ [mkJob st jobType data o]))
        { st with
          jobs := sortJobs (st.jobs ++ [mkJob st jobType data o])
          nextId := st.nextId + 1 })
      (mkJob st jobType data o :: looseJobs st.jobs st) := by
    have h1 : List.Perm (sortJobs (st.jobs ++ [mkJob st jobType data o]))
        (st.jobs ++ [mkJob st jobType data o]) := sortJobs_perm _
    have h2 := (((h1.append_right st.processing).append_right
      st.completed).append_right st.failed).append_right (st.timers.map Prod.snd)
    exact h2.trans (perm_shapeA _ st.jobs st.processing st.completed st.failed
      (st.timers.map Prod.snd))
  refine ⟨h.pendEq, h.procBound, ?_, ?_, h.timerDelay, h.procStatus, h.compStatus, h.failStatus⟩
  · refine ((hperm.map Job.id).symm.nodup) ?_
    refine List.nodup_cons.mpr ⟨?_, h.nodup⟩
    intro hmem
    obtain ⟨x, hx, hid⟩ := List.mem_map.mp hmem
    have := h.fresh x hx
    simp only [mkJob] at hid
    omega
  · intro x hx
    rcases List.mem_cons.mp (hperm.mem_iff.mp hx) with hxe | hxm
    · subst hxe
      show (mkJob st jobType data o).id < st.nextId + 1
      simp [mkJob]
    · have := h.fresh x hxm
      show x.id < st.nextId + 1
      omega

end JobQueue

namespace JobQueue

/-- Moving one element from the head to the back of the third component is
a permutation. -/
theorem perm_shapeC {α : Type} (x : α) (A B C D E : List α) :
    List.Perm (A ++ B ++ (C ++ [x]) ++ D ++ E) (x :: (A ++ B ++ C ++ D ++ E)) := by
  apply permOfMultisetEq
  simp only [← Multiset.cons_coe, ← Multiset.coe_add]
  simp only [← Multiset.singleton_add]
  simp only [Multiset.coe_nil, add_zero]
  abel

/-- Filtering commutes with mapping when the predicate factors through the
map. -/
theorem filter_map_comm {α β : Type} (f : α → β) (p : β → Bool) (l : List α) :
    (l.map f).filter p = (l.filter (fun a => p (f a))).map f := by
  induction l with
  | nil => rfl
  | cons x r ih =>
    simp only [List.map_cons, List.filter_cons]
    by_cases h : p (f x) <;> simp [h, ih]

theorem inv_timerFired (st : QueueState) (id : Nat) (h : InvCore st) :
    InvCore (timerFired st id) := by
  rcases hf : st.timers.find? (fun p => p.2.id == id) with _ | p
  · simpa [timerFired, hf] using h
  · have hpmem : p ∈ st.timers := List.mem_of_find?_eq_some hf
    have hpid : p.2.id = id := by simpa using List.find?_some hf
    have htnd : (st.timers.map (fun q => q.2.id)).Nodup := by
      have hn := h.nodup
      simp only [looseJobs, List.map_append] at hn
      have h2 := hn.of_append_right
      simpa [List.map_map, Function.comp] using h2
    have hT : List.Perm st.timers
        (p :: st.timers.filter (fun q => q.2.id ≠ id)) := by
      have h3 := nodup_filter_ne_perm (fun q : Nat × Job => q.2.id) st.timers p hpmem htnd
      beta_reduce at h3
      rwa [hpid] at h3
    have hbig : List.Perm (looseJobs st.jobs st)
        (p.2 :: (st.jobs ++ st.processing ++ st.completed ++ st.failed ++
          (st.timers.filter (fun q => q.2.id ≠ id)).map Prod.snd)) := by
      have h1 : List.Perm (st.timers.map Prod.snd)
          (p.2 :: (st.timers.filter (fun q => q.2.id ≠ id)).map Prod.snd) := hT.map Prod.snd
      have h2 := h1.append_left (st.jobs ++ st.processing ++ st.completed ++ st.failed)
      exact h2.trans List.perm_middle
    simp only [timerFired, hf]
    apply processLoop_inv
    refine ⟨h.pendEq, h.procBound, ?_, ?_, ?_, h.procStatus, h.compStatus, h.failStatus⟩
    · exact (hbig.map Job.id).nodup h.nodup
    · intro x hx
      rcases List.mem_cons.mp hx with hxe | hxm
      · subst hxe
        exact h.fresh p.2 (List.mem_append_right _ (List.mem_map_of_mem Prod.snd hpmem))
      · rcases List.mem_append.mp hxm with hxl | hxr
        · exact h.fresh x (List.mem_append_left _ hxl)
        · obtain ⟨q, hq, hqe⟩ := List.mem_map.mp hxr
          subst hqe
          exact h.fresh q.2 (List.mem_append_right _
            (List.mem_map_of_mem Prod.snd (List.mem_of_mem_filter hq)))
    · intro q hq
      exact h.timerDelay q (List.mem_of_mem_filter hq)

end JobQueue

namespace JobQueue

theorem inv_handlerResolved (env : HandlerEnv) (st : QueueState) (id : Nat) (h : InvCore st) :
    InvCore (handlerResolved env st id) := by
  rcases hf : st.processing.find? (fun j => j.id == id) with _ | j
  · simpa [handlerResolved, hf] using h
  · have hjmem : j ∈ st.processing := List.mem_of_find?_eq_some hf
    have hjid : j.id = id := by simpa using List.find?_some hf
    have hpnd : (st.processing.map Job.id).Nodup := by
      have hn := h.nodup
      simp only [looseJobs, List.map_append] at hn
      exact hn.of_append_left.of_append_left.of_append_left.of_append_right
    have hP : List.Perm st.processing
        (j :: st.processing.filter (fun k => k.id ≠ id)) := by
      have h3 := nodup_filter_ne_perm (fun k : Job => k.id) st.processing j hjmem hpnd
      beta_reduce at h3
      rwa [hjid] at h3
    have hpend : st.pending.filter (fun i => i ≠ id) =
        (st.processing.filter (fun k => k.id ≠ id)).map Job.id := by
      rw [h.pendEq, filter_map_comm]
    have hPlen : (st.processing.filter (fun k => k.id ≠ id)).length ≤ st.concurrency :=
      le_trans (List.length_filter_le _ _) h.procBound
    have hPsub : ∀ x ∈ st.processing.filter (fun k => k.id ≠ id), x ∈ st.processing :=
      fun x hx => List.mem_of_mem_filter hx
    have h1 : List.Perm (st.jobs ++ st.processing)
        (j :: (st.jobs ++ st.processing.filter (fun k => k.id ≠ id))) :=
      (hP.append_left st.jobs).trans List.perm_middle
    have hold : List.Perm (looseJobs st.jobs st)
        (j :: (st.jobs ++ st.processing.filter (fun k => k.id ≠ id) ++ st.completed ++
          st.failed ++ st.timers.map Prod.snd)) :=
      ((h1.append_right st.completed).append_right st.failed).append_right
        (st.timers.map Prod.snd)
    have hKsub : List.Sublist
        (st.jobs ++ st.processing.filter (fun k => k.id ≠ id) ++ st.completed ++
          st.failed ++ st.timers.map Prod.snd)
        (looseJobs st.jobs st) :=
      ((((List.Sublist.refl st.jobs).append (List.filter_sublist st.processing)).append
        (List.Sublist.refl st.completed)).append (List.Sublist.refl st.failed)).append
        (List.Sublist.refl (st.timers.map Prod.snd))
    have hjloose : j ∈ looseJobs st.jobs st :=
      List.mem_append_left _ (List.mem_append_left _ (List.mem_append_left _
        (List.mem_append_right _ hjmem)))
    by_cases hs : env.succeeds j.jobType j.attempts
    · have he : handlerResolved env st id = startProcessing
          { st with
            processing := st.processing.filter (fun k => k.id ≠ id)
            pending := st.pending.filter (fun i => i ≠ id)
            completed := st.completed ++ [completedJob env st j] } := by
        simp [handlerResolved, hf, hs]
      rw [he]
      apply processLoop_inv
      have htargetS : List.Perm
          (st.jobs ++ st.processing.filter (fun k => k.id ≠ id) ++
            (st.completed ++ [completedJob env st j]) ++ st.failed ++ st.timers.map Prod.snd)
          (completedJob env st j ::
            (st.jobs ++ st.processing.filter (fun k => k.id ≠ id) ++ st.completed ++
              st.failed ++ st.timers.map Prod.snd)) :=
        perm_shapeC _ _ _ _ _ _
      refine ⟨hpend, hPlen, ?_, ?_, h.timerDelay, ?_, ?_, h.failStatus⟩
      · exact (htargetS.map Job.id).symm.nodup ((hold.map Job.id).nodup h.nodup)
      · intro x hx
        rcases List.mem_cons.mp (htargetS.mem_iff.mp hx) with hxe | hxm
        · subst hxe
          exact h.fresh j hjloose
        · exact h.fresh x (hKsub.subset hxm)
      · intro x hx
        exact h.procStatus x (hPsub x hx)
      · intro x hx
        rcases List.mem_append.mp hx with hxo | hxn
        · exact h.compStatus x hxo
        · have hxe : x = completedJob env st j := by simpa using hxn
          subst hxe
          simp [completedJob]
    · by_cases hm : j.maxAttempts ≤ j.attempts + 1
      · have he : handlerResolved env st id = startProcessing
            { st with
              processing := st.processing.filter (fun k => k.id ≠ id)
              pending := st.pending.filter (fun i => i ≠ id)
              failed := st.failed ++ [failedJob env st j] } := by
          simp [handlerResolved, hf, hs, hm]
        rw [he]
        apply processLoop_inv
        have htargetF : List.Perm
            (st.jobs ++ st.processing.filter (fun k => k.id ≠ id) ++ st.completed ++
              (st.failed ++ [failedJob env st j]) ++ st.timers.map Prod.snd)
            (failedJob env st j ::
              (st.jobs ++ st.processing.filter (fun k => k.id ≠ id) ++ st.completed ++
                st.failed ++ st.timers.map Prod.snd)) :=
          perm_shapeD _ _ _ _ _ _
        refine ⟨hpend, hPlen, ?_, ?_, h.timerDelay, ?_, h.compStatus, ?_⟩
        · exact (htargetF.map Job.id).symm.nodup ((hold.map Job.id).nodup h.nodup)
        · intro x hx
          rcases List.mem_cons.mp (htargetF.mem_iff.mp hx) with hxe | hxm
          · subst hxe
            exact h.fresh j hjloose
          · exact h.fresh x (hKsub.subset hxm)
        · intro x hx
          exact h.procStatus x (hPsub x hx)
        · intro x hx
          rcases List.mem_append.mp hx with hxo | hxn
          · exact h.failStatus x hxo
          · have hxe : x = failedJob env st j := by simpa using hxn
            subst hxe
            simp [failedJob]
      · have he : handlerResolved env st id = startProcessing
            { st with
              processing := st.processing.filter (fun k => k.id ≠ id)
              pending := st.pending.filter (fun i => i ≠ id)
              jobs := retryJob env st j :: st.jobs } := by
          simp [handlerResolved, hf, hs, hm]
        rw [he]
        apply processLoop_inv
        refine ⟨hpend, hPlen, ?_, ?_, h.timerDelay, ?_, h.compStatus, h.failStatus⟩
        · exact (hold.map Job.id).nodup h.nodup
        · intro x hx
          rcases List.mem_cons.mp hx with hxe | hxm
          · subst hxe
            exact h.fresh j hjloose
          · exact h.fresh x (hKsub.subset hxm)
        · intro x hx
          exact h.procStatus x (hPsub x hx)

end JobQueue

namespace JobQueue

/-- Every transition preserves wellformedness. -/
theorem step_inv {env : HandlerEnv} {okAdd : QueueState → String → AddOptions → Prop}
    {st st' : QueueState} (hs : Step env okAdd st st') (h : InvCore st) : InvCore st' := by
  cases hs with
  | register ty => exact inv_process st ty h
  | enqueue ty d o hok => exact inv_add st ty d o h
  | timer p hmem hdue => exact inv_timerFired st p.2.id h
  | settle id hmem => exact inv_handlerResolved env st id h
  | tick dt => exact inv_tick st dt h
  | sweep maxAge => exact inv_cleanup st maxAge h

/-- Every reachable state of a queue is wellformed. -/
theorem reachable_inv {env : HandlerEnv} {okAdd : QueueState → String → AddOptions → Prop}
    {n : String} {c : Nat} {st : QueueState}
    (h : Reachable env okAdd (initQueue n c) st) : InvCore st := by
  induction h with
  | refl => exact inv_init n c
  | tail hr hstep ih => exact step_inv hstep ih

theorem step_concurrency {env : HandlerEnv} {okAdd : QueueState → String → AddOptions → Prop}
    {st st' : QueueState} (hs : Step env okAdd st st') : st'.concurrency = st.concurrency := by
  cases hs with
  | register ty => rfl
  | enqueue ty d o hok => exact processLoop_concurrency _ _
  | timer p hmem hdue =>
    unfold timerFired
    rcases hfind : st.timers.find? (fun q => q.2.id == p.2.id) with _ | q
    · simp [hfind]
    · simp only [hfind]
      exact processLoop_concurrency _ _
  | settle id hmem =>
    unfold handlerResolved
    rcases hfind : st.processing.find? (fun j => j.id == id) with _ | j
    · simp [hfind]
    · simp only [hfind]
      split_ifs <;> exact processLoop_concurrency _ _
  | tick dt => rfl
  | sweep maxAge => rfl

/-- The concurrency limit set at construction never changes. -/
theorem reachable_concurrency {env : HandlerEnv}
    {okAdd : QueueState → String → AddOptions → Prop} {n : String} {c : Nat} {st : QueueState}
    (h : Reachable env okAdd (initQueue n c) st) : st.concurrency = c := by
  induction h with
  | refl => rfl
  | tail hr hstep ih => exact (step_concurrency hstep).trans ih

end JobQueue

namespace JobQueue

/-- The dispatch loop moves job records around but neither creates nor
destroys ids. -/
theorem processLoop_ids_perm (l : List Job) (st : QueueState) :
    List.Perm (allIds (processLoop l st)) ((looseJobs l st).map Job.id) := by
  induction l generalizing st with
  | nil => exact List.Perm.refl _
  | cons j rest ih =>
    simp only [processLoop]
    split_ifs with h1 h2 h3 h4
    · refine (ih _).trans ?_
      have hperm : List.Perm
          (looseJobs rest { st with timers := st.timers ++ [(st.now + j.delay, j)] })
          (j :: looseJobs rest st) := by
        have e : looseJobs rest { st with timers := st.timers ++ [(st.now + j.delay, j)] } =
            rest ++ st.processing ++ st.completed ++ st.failed ++
              (st.timers.map Prod.snd ++ [j]) := by
          simp [looseJobs]
        rw [e]
        exact perm_shapeE j rest st.processing st.completed st.failed (st.timers.map Prod.snd)
      exact hperm.map Job.id
    · refine (ih _).trans ?_
      have hperm : List.Perm
          (looseJobs rest { st with
             processing := st.processing ++ [dispatchedJob st j]
             pending := st.pending ++ [j.id] })
          (dispatchedJob st j :: looseJobs rest st) :=
        perm_shapeB _ rest st.processing st.completed st.failed (st.timers.map Prod.snd)
      exact hperm.map Job.id
    · refine (ih _).trans ?_
      have hperm : List.Perm
          (looseJobs rest { st with failed := st.failed ++ [noHandlerFailedJob st j] })
          (noHandlerFailedJob st j :: looseJobs rest st) :=
        perm_shapeD _ rest st.processing st.completed st.failed (st.timers.map Prod.snd)
      exact hperm.map Job.id
    · refine (ih _).trans ?_
      have hperm : List.Perm
          (looseJobs rest { st with
             timers := st.timers ++
               [(st.now + 2 ^ (j.attempts + 1) * 1000, noHandlerRetryJob st j)] })
          (noHandlerRetryJob st j :: looseJobs rest st) := by
        have e : looseJobs rest { st with
             timers := st.timers ++
               [(st.now + 2 ^ (j.attempts + 1) * 1000, noHandlerRetryJob st j)] } =
            rest ++ st.processing ++ st.completed ++ st.failed ++
              (st.timers.map Prod.snd ++ [noHandlerRetryJob st j]) := by
          simp [looseJobs]
        rw [e]
        exact perm_shapeE _ rest st.processing st.completed st.failed (st.timers.map Prod.snd)
      exact hperm.map Job.id
    · exact List.Perm.refl _

/-- `add` introduces exactly one id, the fresh one. -/
theorem add_ids_perm (st : QueueState) (jobType data : String) (o : AddOptions) :
    List.Perm (allIds (add st jobType data o)) (st.nextId :: allIds st) := by
  unfold add startProcessing
  refine (processLoop_ids_perm _ _).trans ?_
  have h1 : List.Perm (sortJobs (st.jobs ++ [mkJob st jobType data o]))
      (st.jobs ++ [mkJob st jobType data o]) := sortJobs_perm _
  have h2 := (((h1.append_right st.processing).append_right
    st.completed).append_right st.failed).append_right (st.timers.map Prod.snd)
  have h3 := h2.trans (perm_shapeA _ st.jobs st.processing st.completed st.failed
    (st.timers.map Prod.snd))
  exact h3.map Job.id

/-- A timer firing neither creates nor destroys ids. -/
theorem timerFired_ids_perm (st : QueueState) (id : Nat) (h : InvCore st) :
    List.Perm (allIds (timerFired st id)) (allIds st) := by
  rcases hf : st.timers.find? (fun p => p.2.id == id) with _ | p
  · simp [timerFired, hf]
  · have hpmem : p ∈ st.timers := List.mem_of_find?_eq_some hf
    have hpid : p.2.id = id := by simpa using List.find?_some hf
    have htnd : (st.timers.map (fun q => q.2.id)).Nodup := by
      have hn := h.nodup
      simp only [looseJobs, List.map_append] at hn
      have h2 := hn.of_append_right
      simpa [List.map_map, Function.comp] using h2
    have hT : List.Perm st.timers
        (p :: st.timers.filter (fun q => q.2.id ≠ id)) := by
      have h3 := nodup_filter_ne_perm (fun q : Nat × Job => q.2.id) st.timers p hpmem htnd
      beta_reduce at h3
      rwa [hpid] at h3
    have hbig : List.Perm (looseJobs st.jobs st)
        (p.2 :: (st.jobs ++ st.processing ++ st.completed ++ st.failed ++
          (st.timers.filter (fun q => q.2.id ≠ id)).map Prod.snd)) := by
      have h1 : List.Perm (st.timers.map Prod.snd)
          (p.2 :: (st.timers.filter (fun q => q.2.id ≠ id)).map Prod.snd) := hT.map Prod.snd
      have h2 := h1.append_left (st.jobs ++ st.processing ++ st.completed ++ st.failed)
      exact h2.trans List.perm_middle
    simp only [timerFired, hf]
    refine (processLoop_ids_perm _ _).trans ?_
    exact ((hbig.map Job.id).symm : _)

/-- A handler settling neither creates nor destroys ids. -/
theorem handlerResolved_ids_perm (env : HandlerEnv) (st : QueueState) (id : Nat)
    (h : InvCore st) :
    List.Perm (allIds (handlerResolved env st id)) (allIds st) := by
  rcases hf : st.processing.find? (fun j => j.id == id) with _ | j
  · simp [handlerResolved, hf]
  · have hjmem : j ∈ st.processing := List.mem_of_find?_eq_some hf
    have hjid : j.id = id := by simpa using List.find?_some hf
    have hpnd : (st.processing.map Job.id).Nodup := by
      have hn := h.nodup
      simp only [looseJobs, List.map_append] at hn
      exact hn.of_append_left.of_append_left.of_append_left.of_append_right
    have hP : List.Perm st.processing
        (j :: st.processing.filter (fun k => k.id ≠ id)) := by
      have h3 := nodup_filter_ne_perm (fun k : Job => k.id) st.processing j hjmem hpnd
      beta_reduce at h3
      rwa [hjid] at h3
    have h1 : List.Perm (st.jobs ++ st.processing)
        (j :: (st.jobs ++ st.processing.filter (fun k => k.id ≠ id))) :=
      (hP.append_left st.jobs).trans List.perm_middle
    have hold : List.Perm (looseJobs st.jobs st)
        (j :: (st.jobs ++ st.processing.filter (fun k => k.id ≠ id) ++ st.completed ++
          st.failed ++ st.timers.map Prod.snd)) :=
      ((h1.append_right st.completed).append_right st.failed).append_right
        (st.timers.map Prod.snd)
    by_cases hs : env.succeeds j.jobType j.attempts
    · have he : handlerResolved env st id = startProcessing
          { st with
            processing := st.processing.filter (fun k => k.id ≠ id)
            pending := st.pending.filter (fun i => i ≠ id)
            completed := st.completed ++ [completedJob env st j] } := by
        simp [handlerResolved, hf, hs]
      rw [he]
      refine (processLoop_ids_perm _ _).trans ?_
      have htargetS : List.Perm
          (st.jobs ++ st.processing.filter (fun k => k.id ≠ id) ++
            (st.completed ++ [completedJob env st j]) ++ st.failed ++ st.timers.map Prod.snd)
          (completedJob env st j ::
            (st.jobs ++ st.processing.filter (fun k => k.id ≠ id) ++ st.completed ++
              st.failed ++ st.timers.map Prod.snd)) :=
        perm_shapeC _ _ _ _ _ _
      exact (htargetS.map Job.id).trans (hold.map Job.id).symm
    · by_cases hm : j.maxAttempts ≤ j.attempts + 1
      · have he : handlerResolved env st id = startProcessing
            { st with
              processing := st.processing.filter (fun k => k.id ≠ id)
              pending := st.pending.filter (fun i => i ≠ id)
              failed := st.failed ++ [failedJob env st j] } := by
          simp [handlerResolved, hf, hs, hm]
        rw [he]
        refine (processLoop_ids_perm _ _).trans ?_
        have htargetF : List.Perm
            (st.jobs ++ st.processing.filter (fun k => k.id ≠ id) ++ st.completed ++
              (st.failed ++ [failedJob env st j]) ++ st.timers.map Prod.snd)
            (failedJob env st j ::
              (st.jobs ++ st.processing.filter (fun k => k.id ≠ id) ++ st.completed ++
                st.failed ++ st.timers.map Prod.snd)) :=
          perm_shapeD _ _ _ _ _ _
        exact (htargetF.map Job.id).trans (hold.map Job.id).symm
      · have he : handlerResolved env st id = startProcessing
            { st with
              processing := st.processing.filter (fun k => k.id ≠ id)
              pending := st.pending.filter (fun i => i ≠ id)
              jobs := retryJob env st j :: st.jobs } := by
          simp [handlerResolved, hf, hs, hm]
        rw [he]
        refine (processLoop_ids_perm _ _).trans ?_
        exact (hold.map Job.id).symm

end JobQueue

namespace JobQueue

/-- A step can only introduce the currently fresh id. -/
theorem step_ids_sub {env : HandlerEnv} {okAdd : QueueState → String → AddOptions → Prop}
    {st st' : QueueState} (hs : Step env okAdd st st') (h : InvCore st) :
    ∀ i ∈ allIds st', i = st.nextId ∨ i ∈ allIds st := by
  cases hs with
  | register ty => exact fun i hi => Or.inr hi
  | enqueue ty d o hok =>
    intro i hi
    have := (add_ids_perm st ty d o).mem_iff.mp hi
    simpa using this
  | timer p hmem hdue =>
    exact fun i hi => Or.inr ((timerFired_ids_perm st p.2.id h).mem_iff.mp hi)
  | settle id hmem =>
    exact fun i hi => Or.inr ((handlerResolved_ids_perm env st id h).mem_iff.mp hi)
  | tick dt => exact fun i hi => Or.inr hi
  | sweep maxAge =>
    intro i hi
    refine Or.inr ?_
    obtain ⟨x, hx, hxi⟩ := List.mem_map.mp hi
    have hsub : List.Sublist (allJobsList (cleanup st maxAge).2) (allJobsList st) :=
      ((((List.Sublist.refl (st.jobs ++ st.processing)).append
        (List.filter_sublist st.completed)).append
        (List.filter_sublist st.failed)).append (List.Sublist.refl (st.timers.map Prod.snd)))
    exact hxi ▸ List.mem_map_of_mem Job.id (hsub.subset hx)

theorem step_nextId_mono {env : HandlerEnv} {okAdd : QueueState → String → AddOptions → Prop}
    {st st' : QueueState} (hs : Step env okAdd st st') : st.nextId ≤ st'.nextId := by
  cases hs with
  | register ty => exact le_refl _
  | enqueue ty d o hok =>
    show st.nextId ≤ (add st ty d o).nextId
    unfold add startProcessing
    rw [processLoop_nextId]
    exact Nat.le_succ _
  | timer p hmem hdue =>
    show st.nextId ≤ (timerFired st p.2.id).nextId
    unfold timerFired
    rcases hf : st.timers.find? (fun q => q.2.id == p.2.id) with _ | q
    · simp [hf]
    · simp only [hf]
      exact Nat.le_of_eq (Eq.symm (processLoop_nextId _ _))
  | settle id hmem =>
    show st.nextId ≤ (handlerResolved env st id).nextId
    unfold handlerResolved
    rcases hf : st.processing.find? (fun j => j.id == id) with _ | j
    · simp [hf]
    · simp only [hf]
      split_ifs <;> exact Nat.le_of_eq (Eq.symm (processLoop_nextId _ _))
  | tick dt => exact le_refl _
  | sweep maxAge => exact le_refl _

/-- Searching a duplicate-free list by id finds exactly the member. -/
theorem find_eq_some_of_mem (L : List Job) (x : Job) (i : Nat)
    (hnd : (L.map Job.id).Nodup) (hx : x ∈ L) (hid : x.id = i) :
    L.find? (fun y => y.id == i) = some x := by
  induction L with
  | nil => exact absurd hx (List.not_mem_nil x)
  | cons z R ih =>
    have hndR : (R.map Job.id).Nodup := (List.nodup_cons.mp (by simpa using hnd)).2
    have hzR : z.id ∉ R.map Job.id := (List.nodup_cons.mp (by simpa using hnd)).1
    rcases List.mem_cons.mp hx with hxz | hxR
    · subst hxz
      simp [List.find?_cons, hid]
    · have hzi : z.id ≠ i := by
        intro he
        exact hzR (he ▸ hid ▸ List.mem_map_of_mem Job.id hxR)
      have hcond : (z.id == i) = false := by simp [hzi]
      simp only [List.find?_cons, hcond, Bool.false_eq_true, if_false]
      exact ih hndR hxR

/-- Searching a duplicate-free list for an id held by no member fails. -/
theorem find_eq_none_of_not_mem (L : List Job) (i : Nat)
    (hnone : i ∉ L.map Job.id) :
    L.find? (fun y => y.id == i) = none := by
  rw [List.find?_eq_none]
  intro x hx
  simp only [beq_iff_eq]
  intro he
  exact hnone (he ▸ List.mem_map_of_mem Job.id hx)

/-- Every record in the post-loop state either was already present before
the loop ran, or carries a status the loop itself wrote — which is never
`completed`. -/
theorem processLoop_mem_cases (l : List Job) (st : QueueState) :
    ∀ x ∈ allJobsList (processLoop l st),
      x ∈ l ∨ x ∈ st.processing ∨ x ∈ st.completed ∨ x ∈ st.failed ∨
        x ∈ st.timers.map Prod.snd ∨ x.status ≠ Status.completed := by
  induction l generalizing st with
  | nil =>
    intro x hx
    rcases List.mem_append.mp hx with hx4 | hxT
    · rcases List.mem_append.mp hx4 with hx3 | hxF
      · rcases List.mem_append.mp hx3 with hx2 | hxC
        · rcases List.mem_append.mp hx2 with hx1 | hxP
          · exact absurd hx1 (List.not_mem_nil x)
          · exact Or.inr (Or.inl hxP)
        · exact Or.inr (Or.inr (Or.inl hxC))
      · exact Or.inr (Or.inr (Or.inr (Or.inl hxF)))
    · exact Or.inr (Or.inr (Or.inr (Or.inr (Or.inl hxT))))
  | cons j rest ih =>
    intro x hx
    simp only [processLoop] at hx
    split_ifs at hx with h1 h2 h3 h4
    · rcases ih _ x hx with hr | hP | hC | hF | hT | hS
      · exact Or.inl (List.mem_cons_of_mem j hr)
      · exact Or.inr (Or.inl hP)
      · exact Or.inr (Or.inr (Or.inl hC))
      · exact Or.inr (Or.inr (Or.inr (Or.inl hF)))
      · rcases List.mem_map.mp hT with ⟨q, hq, hqe⟩
        rcases List.mem_append.mp hq with hqo | hqn
        · exact Or.inr (Or.inr (Or.inr (Or.inr (Or.inl
            (hqe ▸ List.mem_map_of_mem Prod.snd hqo)))))
        · have : q = (st.now + j.delay, j) := by simpa using hqn
          subst this
          exact Or.inl (hqe ▸ List.mem_cons_self _ _)
      · exact Or.inr (Or.inr (Or.inr (Or.inr (Or.inr hS))))
    · rcases ih _ x hx with hr | hP | hC | hF | hT | hS
      · exact Or.inl (List.mem_cons_of_mem j hr)
      · rcases List.mem_append.mp hP with hPo | hPn
        · exact Or.inr (Or.inl hPo)
        · have : x = dispatchedJob st j := by simpa using hPn
          subst this
          exact Or.inr (Or.inr (Or.inr (Or.inr (Or.inr (by simp [dispatchedJob])))))
      · exact Or.inr (Or.inr (Or.inl hC))
      · exact Or.inr (Or.inr (Or.inr (Or.inl hF)))
      · exact Or.inr (Or.inr (Or.inr (Or.inr (Or.inl hT))))
      · exact Or.inr (Or.inr (Or.inr (Or.inr (Or.inr hS))))
    · rcases ih _ x hx with hr | hP | hC | hF | hT | hS
      · exact Or.inl (List.mem_cons_of_mem j hr)
      · exact Or.inr (Or.inl hP)
      · exact Or.inr (Or.inr (Or.inl hC))
      · rcases List.mem_append.mp hF with hFo | hFn
        · exact Or.inr (Or.inr (Or.inr (Or.inl hFo)))
        · have : x = noHandlerFailedJob st j := by simpa using hFn
          subst this
          exact Or.inr (Or.inr (Or.inr (Or.inr (Or.inr (by simp [noHandlerFailedJob])))))
      · exact Or.inr (Or.inr (Or.inr (Or.inr (Or.inl hT))))
      · exact Or.inr (Or.inr (Or.inr (Or.inr (Or.inr hS))))
    · rcases ih _ x hx with hr | hP | hC | hF | hT | hS
      · exact Or.inl (List.mem_cons_of_mem j hr)
      · exact Or.inr (Or.inl hP)
      · exact Or.inr (Or.inr (Or.inl hC))
      · exact Or.inr (Or.inr (Or.inr (Or.inl hF)))
      · rcases List.mem_map.mp hT with ⟨q, hq, hqe⟩
        rcases List.mem_append.mp hq with hqo | hqn
        · exact Or.inr (Or.inr (Or.inr (Or.inr (Or.inl
            (hqe ▸ List.mem_map_of_mem Prod.snd hqo)))))
        · have : q = (st.now + 2 ^ (j.attempts + 1) * 1000, noHandlerRetryJob st j) := by
            simpa using hqn
          subst this
          refine Or.inr (Or.inr (Or.inr (Or.inr (Or.inr ?_))))
          rw [← hqe]
          simp [noHandlerRetryJob]
      · exact Or.inr (Or.inr (Or.inr (Or.inr (Or.inr hS))))
    · rcases List.mem_append.mp hx with hx4 | hxT
      · rcases List.mem_append.mp hx4 with hx3 | hxF
        · rcases List.mem_append.mp hx3 with hx2 | hxC
          · rcases List.mem_append.mp hx2 with hx1 | hxP
            · exact Or.inl hx1
            · exact Or.inr (Or.inl hxP)
          · exact Or.inr (Or.inr (Or.inl hxC))
        · exact Or.inr (Or.inr (Or.inr (Or.inl hxF)))
      · exact Or.inr (Or.inr (Or.inr (Or.inr (Or.inl hxT))))

end JobQueue

namespace JobQueue

/-- A handler environment whose handlers always fulfil. -/
def envAll : HandlerEnv :=
  { succeeds := fun _ _ => true
    resultOf := fun _ _ => "ok"
    errorOf := fun _ _ => "err" }

/-- A handler environment whose handlers always reject with "boom". -/
def envFail : HandlerEnv :=
  { succeeds := fun _ _ => false
    resultOf := fun _ _ => "ok"
    errorOf := fun _ _ => "boom" }

theorem timeGeB_eq_not_timeLtB (x : Option Nat) (c : Nat) (hx : x.isSome = true) :
    timeGeB x c = !timeLtB x c := by
  cases x with
  | none => simp at hx
  | some t =>
    rcases Nat.lt_or_ge t c with h | h
    · simp [timeGeB, timeLtB, h, Nat.not_le.mpr h]
    · simp [timeGeB, timeLtB, h, Nat.not_lt.mpr h]

theorem length_filter_not_add {α : Type} (p : α → Bool) (l : List α) :
    (l.filter p).length + (l.filter (fun a => !p a)).length = l.length := by
  induction l with
  | nil => rfl
  | cons x r ih => by_cases h : p x <;> simp [List.filter_cons, h, ← ih] <;> omega

end JobQueue

open JobQueue

/-- C5: for every queue constructed with concurrency `N`, at no reachable
state does the processing array hold more than `N` jobs; and a job waiting
out its retry/backoff delay — captured inside a pending `setTimeout` — is
never simultaneously in the processing array, so it does not occupy a
concurrency slot during the delay. -/
theorem c5_concurrency_bound (env : HandlerEnv)
    (okAdd : QueueState → String → AddOptions → Prop) (n : String) (c : Nat)
    (st : QueueState) (h : Reachable env okAdd (initQueue n c) st) :
    st.processing.length ≤ c ∧
      ∀ p ∈ st.timers, p.2.id ∉ st.processing.map Job.id := by
  have hinv := reachable_inv h
  have hc := reachable_concurrency h
  refine ⟨hc ▸ hinv.procBound, ?_⟩
  intro p hp hmem
  have hn := hinv.nodup
  simp only [looseJobs, List.map_append] at hn
  have hdisj := List.disjoint_of_nodup_append hn
  exact hdisj
    (List.mem_append_left _ (List.mem_append_left _ (List.mem_append_right _ hmem)))
    (List.mem_map_of_mem Job.id (List.mem_map_of_mem Prod.snd hp))

/-- A concrete reachable state used as the C5 witness: a concurrency-1
queue that dispatched the first of two enqueued jobs. -/
def c5WitState : QueueState :=
  add (add (process (initQueue "q" 1) "t") "t" "a" {}) "t" "b" {}

/-- Witness for C5: the bound holds at a concrete reachable state whose
processing array is full. -/
theorem c5_witness :
    c5WitState.processing.length ≤ 1 ∧
      ∀ p ∈ c5WitState.timers, p.2.id ∉ c5WitState.processing.map Job.id := by
  have h0 : Reachable envAll anyAdd (initQueue "q" 1) (process (initQueue "q" 1) "t") :=
    Relation.ReflTransGen.single (Step.register _ "t")
  have h1 : Reachable envAll anyAdd (initQueue "q" 1)
      (add (process (initQueue "q" 1) "t") "t" "a" {}) :=
    h0.tail (Step.enqueue _ "t" "a" {} trivial)
  have h : Reachable envAll anyAdd (initQueue "q" 1) c5WitState :=
    h1.tail (Step.enqueue _ "t" "b" {} trivial)
  exact c5_concurrency_bound envAll anyAdd "q" 1 c5WitState h

/-- C7: on every reachable state, `cleanup(maxAgeMs)` keeps exactly the
completed jobs with `completedAt >= now - maxAgeMs` and the failed jobs
with `failedAt >= now - maxAgeMs` (their records byte-for-byte unchanged),
removes exactly the others, returns the number removed, leaves the
waiting array, the processing array and the pending timers untouched, and
an immediate second call with the same age removes zero jobs and changes
nothing. -/
theorem c7_cleanup (env : HandlerEnv)
    (okAdd : QueueState → String → AddOptions → Prop) (n : String) (c : Nat)
    (st : QueueState) (maxAge : Nat) (h : Reachable env okAdd (initQueue n c) st) :
    (cleanup st maxAge).2.completed =
        st.completed.filter (fun j => !timeLtB j.completedAt (st.now - maxAge)) ∧
    (cleanup st maxAge).2.failed =
        st.failed.filter (fun j => !timeLtB j.failedAt (st.now - maxAge)) ∧
    (cleanup st maxAge).1 + (cleanup st maxAge).2.completed.length +
        (cleanup st maxAge).2.failed.length = st.completed.length + st.failed.length ∧
    (cleanup st maxAge).2.jobs = st.jobs ∧
    (cleanup st maxAge).2.processing = st.processing ∧
    (cleanup st maxAge).2.timers = st.timers ∧
    cleanup (cleanup st maxAge).2 maxAge = (0, (cleanup st maxAge).2) := by
  have hinv := reachable_inv h
  have hCsome : ∀ j ∈ st.completed, (Job.completedAt j).isSome = true :=
    fun j hj => (hinv.compStatus j hj).2
  have hFsome : ∀ j ∈ st.failed, (Job.failedAt j).isSome = true :=
    fun j hj => (hinv.failStatus j hj).2
  have hCeq : st.completed.filter (fun j => timeGeB j.completedAt (st.now - maxAge)) =
      st.completed.filter (fun j => !timeLtB j.completedAt (st.now - maxAge)) := by
    apply List.filter_congr
    intro j hj
    exact timeGeB_eq_not_timeLtB _ _ (hCsome j hj)
  have hFeq : st.failed.filter (fun j => timeGeB j.failedAt (st.now - maxAge)) =
      st.failed.filter (fun j => !timeLtB j.failedAt (st.now - maxAge)) := by
    apply List.filter_congr
    intro j hj
    exact timeGeB_eq_not_timeLtB _ _ (hFsome j hj)
  have hClen := length_filter_not_add
    (fun j => timeLtB (Job.completedAt j) (st.now - maxAge)) st.completed
  have hFlen := length_filter_not_add
    (fun j => timeLtB (Job.failedAt j) (st.now - maxAge)) st.failed
  have hCnil : ((cleanup st maxAge).2.completed.filter
      (fun j => timeLtB j.completedAt ((cleanup st maxAge).2.now - maxAge))) = [] := by
    rw [List.filter_eq_nil_iff]
    intro j hj
    show ¬ timeLtB j.completedAt (st.now - maxAge) = true
    have hj0 : j ∈ st.completed.filter
        (fun jj => timeGeB jj.completedAt (st.now - maxAge)) := hj
    have hmem : j ∈ st.completed := List.mem_of_mem_filter hj0
    have hge : timeGeB j.completedAt (st.now - maxAge) = true := (List.mem_filter.mp hj0).2
    rw [timeGeB_eq_not_timeLtB _ _ (hCsome j hmem)] at hge
    simp at hge
    simp [hge]
  have hFnil : ((cleanup st maxAge).2.failed.filter
      (fun j => timeLtB j.failedAt ((cleanup st maxAge).2.now - maxAge))) = [] := by
    rw [List.filter_eq_nil_iff]
    intro j hj
    show ¬ timeLtB j.failedAt (st.now - maxAge) = true
    have hj0 : j ∈ st.failed.filter
        (fun jj => timeGeB jj.failedAt (st.now - maxAge)) := hj
    have hmem : j ∈ st.failed := List.mem_of_mem_filter hj0
    have hge : timeGeB j.failedAt (st.now - maxAge) = true := (List.mem_filter.mp hj0).2
    rw [timeGeB_eq_not_timeLtB _ _ (hFsome j hmem)] at hge
    simp at hge
    simp [hge]
  have hCself : ((cleanup st maxAge).2.completed.filter
      (fun j => timeGeB j.completedAt ((cleanup st maxAge).2.now - maxAge))) =
      (cleanup st maxAge).2.completed := by
    rw [List.filter_eq_self]
    intro j hj
    have hj0 : j ∈ st.completed.filter
        (fun jj => timeGeB jj.completedAt (st.now - maxAge)) := hj
    exact (List.mem_filter.mp hj0).2
  have hFself : ((cleanup st maxAge).2.failed.filter
      (fun j => timeGeB j.failedAt ((cleanup st maxAge).2.now - maxAge))) =
      (cleanup st maxAge).2.failed := by
    rw [List.filter_eq_self]
    intro j hj
    have hj0 : j ∈ st.failed.filter
        (fun jj => timeGeB jj.failedAt (st.now - maxAge)) := hj
    exact (List.mem_filter.mp hj0).2
  refine ⟨hCeq, hFeq, ?_, rfl, rfl, rfl, ?_⟩
  · show ((st.completed.filter (fun j => timeLtB j.completedAt (st.now - maxAge))).length +
        (st.failed.filter (fun j => timeLtB j.failedAt (st.now - maxAge))).length) +
        (st.completed.filter (fun j => timeGeB j.completedAt (st.now - maxAge))).length +
        (st.failed.filter (fun j => timeGeB j.failedAt (st.now - maxAge))).length =
        st.completed.length + st.failed.length
    rw [hCeq, hFeq]
    omega
  · have h1 : (cleanup (cleanup st maxAge).2 maxAge).1 = 0 := by
      show ((cleanup st maxAge).2.completed.filter
          (fun j => timeLtB j.completedAt ((cleanup st maxAge).2.now - maxAge))).length +
        ((cleanup st maxAge).2.failed.filter
          (fun j => timeLtB j.failedAt ((cleanup st maxAge).2.now - maxAge))).length = 0
      rw [hCnil, hFnil]
      simp
    have h2 : (cleanup (cleanup st maxAge).2 maxAge).2 = (cleanup st maxAge).2 := by
      show ({ (cleanup st maxAge).2 with
          completed := (cleanup st maxAge).2.completed.filter
            (fun j => timeGeB j.completedAt ((cleanup st maxAge).2.now - maxAge))
          failed := (cleanup st maxAge).2.failed.filter
            (fun j => timeGeB j.failedAt ((cleanup st maxAge).2.now - maxAge)) } : QueueState) =
        (cleanup st maxAge).2
      rw [hCself, hFself]
    exact Prod.ext h1 h2

/-- A concrete reachable state with one completed job, used as the C7
witness. -/
def c7WitState : QueueState :=
  handlerResolved envAll (add (process (initQueue "q" 1) "t") "t" "a" {}) 0

/-- Witness for C7: the cleanup contract at a concrete reachable state with
a completed job and age 5 ms. -/
theorem c7_witness :
    (cleanup c7WitState 5).2.completed =
        c7WitState.completed.filter (fun j => !timeLtB j.completedAt (c7WitState.now - 5)) ∧
    (cleanup c7WitState 5).2.failed =
        c7WitState.failed.filter (fun j => !timeLtB j.failedAt (c7WitState.now - 5)) ∧
    (cleanup c7WitState 5).1 + (cleanup c7WitState 5).2.completed.length +
        (cleanup c7WitState 5).2.failed.length =
        c7WitState.completed.length + c7WitState.failed.length ∧
    (cleanup c7WitState 5).2.jobs = c7WitState.jobs ∧
    (cleanup c7WitState 5).2.processing = c7WitState.processing ∧
    (cleanup c7WitState 5).2.timers = c7WitState.timers ∧
    cleanup (cleanup c7WitState 5).2 5 = (0, (cleanup c7WitState 5).2) := by
  have h0 : Reachable envAll anyAdd (initQueue "q" 1) (process (initQueue "q" 1) "t") :=
    Relation.ReflTransGen.single (Step.register _ "t")
  have h1 : Reachable envAll anyAdd (initQueue "q" 1)
      (add (process (initQueue "q" 1) "t") "t" "a" {}) :=
    h0.tail (Step.enqueue _ "t" "a" {} trivial)
  have h2 : Reachable envAll anyAdd (initQueue "q" 1) c7WitState :=
    h1.tail (Step.settle _ 0 (by decide))
  exact c7_cleanup envAll anyAdd "q" 1 c7WitState 5 h2

/-- C9: because `...options` is spread into the job literal after the
default fields, every present key overrides the corresponding field:
(i) the constructed record takes `maxAttempts`/`status`/`attempts`/
`priority`/`delay` from the options whenever present — even falsy values,
so `{maxAttempts: 0}` survives the `options.maxAttempts || 3` default;
(ii) a job added with `{maxAttempts: 0}` fails permanently after its first
unsuccessful attempt despite the documented default of 3;
(iii) `{status: 'completed'}` puts a job into the waiting array with
status `completed`, counted as waiting by `getStats`;
(iv) `{attempts: 5}` yields a job whose very first handler failure already
exceeds the default `maxAttempts = 3`, failing it with `attempts = 6`. -/
theorem c9_options_spread :
    (∀ (st : QueueState) (ty d : String) (o : AddOptions),
      (mkJob st ty d o).maxAttempts = o.maxAttempts.getD 3 ∧
      (mkJob st ty d o).status = o.status.getD Status.waiting ∧
      (mkJob st ty d o).attempts = o.attempts.getD 0 ∧
      (mkJob st ty d o).priority = o.priority.getD 0 ∧
      (mkJob st ty d o).delay = o.delay.getD 0) ∧
    ((handlerResolved envFail
        (add (process (initQueue "q" 1) "t") "t" "d" { maxAttempts := some 0 }) 0).failed.map
      (fun j => (j.status, j.attempts, j.maxAttempts)) = [(Status.failed, 1, 0)]) ∧
    ((add (initQueue "q" 0) "t" "d" { status := some Status.completed }).jobs.map
      (fun j => j.status) = [Status.completed]) ∧
    (getStats (add (initQueue "q" 0) "t" "d" { status := some Status.completed })).waiting = 1 ∧
    ((handlerResolved envFail
        (add (process (initQueue "q" 1) "t") "t" "d" { attempts := some 5 }) 0).failed.map
      (fun j => (j.status, j.attempts, j.maxAttempts)) = [(Status.failed, 6, 3)]) := by
  refine ⟨?_, by decide, by decide, by decide, by decide⟩
  intro st ty d o
  exact ⟨rfl, rfl, rfl, rfl, rfl⟩

/-- C3 counterexample: a job of an unregistered type is NOT a permanent
first-attempt failure.  Adding it to an idle queue runs one synchronous
attempt; afterwards the failed array is empty and the job sits in a
pending 2000 ms retry timer with status `waiting`, `attempts = 1` and
backoff delay 2000 ms — it is retried, and it does consume backoff. -/
theorem c3_counterexample :
    (add (initQueue "q" 1) "u" "d" {}).failed = [] ∧
    (add (initQueue "q" 1) "u" "d" {}).timers.map
      (fun p => (p.1, p.2.status, p.2.attempts, p.2.delay)) =
      [(2000, Status.waiting, 1, 2000)] := by
  decide

/-- The record of the unregistered-type job captured in its first retry
timer (after the synchronous first attempt at time 0). -/
def c3Job1 : Job :=
  { id := 0
    jobType := "u"
    data := "d"
    status := Status.waiting
    priority := 0
    attempts := 1
    maxAttempts := 3
    delay := 2000
    createdAt := 0
    startedAt := some 0
    error := some (noHandlerMsg "u")
    errorStack := some (noHandlerMsg "u") }

/-- The same job in its second retry timer (after the second attempt at
time 2000). -/
def c3Job2 : Job :=
  { c3Job1 with
    attempts := 2
    delay := 4000
    startedAt := some 2000 }

/-- The full life of an unregistered-type job with default options. -/
def c3FinalState : QueueState :=
  timerFired (tick (timerFired (tick (add (initQueue "q" 1) "u" "d" {}) 2000) 0) 4000) 0

/-- C3 amended: handler-not-found is an ordinary, retryable handler error.
When the loop dispatches a ready job of an unregistered type, the thrown
error is caught by the same catch block as handler failures: `attempts` is
incremented, and the job either fails terminally (when the incremented
count reaches `maxAttempts`) or is re-scheduled with the usual backoff
`2^attempts * 1000` ms; with the default `maxAttempts = 3` the job only
reaches `failed` after consuming the 2 s and 4 s backoffs, with
`attempts = 3` and the no-handler message recorded — and that run is a
legal schedule of the queue. -/
theorem c3_amended (st : QueueState) (j : Job)
    (hjobs : st.jobs = [j]) (hslot : st.processing.length < st.concurrency)
    (hdelay : j.delay = 0) (hreg : st.handlers.contains j.jobType = false) :
    (j.maxAttempts ≤ j.attempts + 1 →
      startProcessing st =
        { st with
          jobs := []
          failed := st.failed ++ [noHandlerFailedJob st j] }) ∧
    (j.attempts + 1 < j.maxAttempts →
      startProcessing st =
        { st with
          jobs := []
          timers := st.timers ++
            [(st.now + 2 ^ (j.attempts + 1) * 1000, noHandlerRetryJob st j)] }) ∧
    c3FinalState.failed.map (fun k => (k.status, k.attempts, k.error)) =
      [(Status.failed, 3, some (noHandlerMsg "u"))] ∧
    Reachable envAll anyAdd (initQueue "q" 1) c3FinalState := by
  have hreg' : j.jobType ∉ st.handlers := by simpa using hreg
  refine ⟨?_, ?_, by decide, ?_⟩
  · intro hcase
    simp [startProcessing, hjobs, processLoop, hslot, hdelay, hreg', hcase]
  · intro hcase
    simp [startProcessing, hjobs, processLoop, hslot, hdelay, hreg', Nat.not_le.mpr hcase]
  · have h1 : Reachable envAll anyAdd (initQueue "q" 1)
        (add (initQueue "q" 1) "u" "d" {}) :=
      Relation.ReflTransGen.single (Step.enqueue _ "u" "d" {} trivial)
    have h2 : Reachable envAll anyAdd (initQueue "q" 1)
        (tick (add (initQueue "q" 1) "u" "d" {}) 2000) :=
      h1.tail (Step.tick _ 2000)
    have h3 : Reachable envAll anyAdd (initQueue "q" 1)
        (timerFired (tick (add (initQueue "q" 1) "u" "d" {}) 2000) 0) :=
      h2.tail (Step.timer _ (2000, c3Job1) (by decide) (by decide))
    have h4 : Reachable envAll anyAdd (initQueue "q" 1)
        (tick (timerFired (tick (add (initQueue "q" 1) "u" "d" {}) 2000) 0) 4000) :=
      h3.tail (Step.tick _ 4000)
    exact h4.tail (Step.timer _ (6000, c3Job2) (by decide) (by decide))

/-- The one-waiting-job state used by the C3 witness. -/
def c3WitJob : Job := mkJob (initQueue "q" 1) "u" "d" {}

/-- The C3 witness base state: an idle concurrency-1 queue whose waiting
array holds one ready job of an unregistered type. -/
def c3WitBase : QueueState := { initQueue "q" 1 with jobs := [c3WitJob] }

/-- Witness for C3 amended: both branches of the no-handler rule at a
concrete one-job state, plus the closed full run. -/
theorem c3_witness :
    (c3WitJob.maxAttempts ≤ c3WitJob.attempts + 1 →
      startProcessing c3WitBase =
        { c3WitBase with
          jobs := []
          failed := c3WitBase.failed ++ [noHandlerFailedJob c3WitBase c3WitJob] }) ∧
    (c3WitJob.attempts + 1 < c3WitJob.maxAttempts →
      startProcessing c3WitBase =
        { c3WitBase with
          jobs := []
          timers := c3WitBase.timers ++
            [(c3WitBase.now + 2 ^ (c3WitJob.attempts + 1) * 1000,
              noHandlerRetryJob c3WitBase c3WitJob)] }) ∧
    c3FinalState.failed.map (fun k => (k.status, k.attempts, k.error)) =
      [(Status.failed, 3, some (noHandlerMsg "u"))] ∧
    Reachable envAll anyAdd (initQueue "q" 1) c3FinalState :=
  c3_amended c3WitBase c3WitJob rfl (by decide) rfl (by decide)

namespace JobQueue

theorem jobs_sub_allJobsList (st : QueueState) : ∀ x ∈ st.jobs, x ∈ allJobsList st :=
  fun x h => List.mem_append_left _ (List.mem_append_left _
    (List.mem_append_left _ (List.mem_append_left _ h)))

theorem processing_sub_allJobsList (st : QueueState) :
    ∀ x ∈ st.processing, x ∈ allJobsList st :=
  fun x h => List.mem_append_left _ (List.mem_append_left _
    (List.mem_append_left _ (List.mem_append_right _ h)))

theorem completed_sub_allJobsList (st : QueueState) :
    ∀ x ∈ st.completed, x ∈ allJobsList st :=
  fun x h => List.mem_append_left _ (List.mem_append_left _ (List.mem_append_right _ h))

theorem failed_sub_allJobsList (st : QueueState) :
    ∀ x ∈ st.failed, x ∈ allJobsList st :=
  fun x h => List.mem_append_left _ (List.mem_append_right _ h)

theorem timersSnd_sub_allJobsList (st : QueueState) :
    ∀ x ∈ st.timers.map Prod.snd, x ∈ allJobsList st :=
  fun x h => List.mem_append_right _ h

end JobQueue

/-- C10 counterexample: `add` can return a job that is already `failed`.
Adding a job of an unregistered type with `{maxAttempts: 1}` to an idle
queue throws and exhausts the attempts synchronously inside the `add`
call, so the record `add` hands back has status `failed` at the moment
`add` returns — refuting the claim's "never 'completed' or 'failed'". -/
theorem c10_counterexample :
    (jobRef (add (initQueue "q" 1) "u" "d" { maxAttempts := some 1 }) 0).map Job.status =
      some Status.failed ∧
    (add (initQueue "q" 1) "u" "d" { maxAttempts := some 1 }).failed.length = 1 := by
  decide

/-- The record returned by `add` into an idle queue with a registered
handler: already dispatched. -/
def c10ProcJob : Job :=
  { id := 0
    jobType := "t"
    data := "d"
    status := Status.processing
    priority := 0
    attempts := 0
    maxAttempts := 3
    delay := 0
    createdAt := 0
    startedAt := some 0 }

/-- C10 amended: `add` runs the scheduler synchronously before returning,
so the returned job may already be `processing` with `startedAt` set (the
second conjunct exhibits this); in every case — as long as the options do
not smuggle a `status` override (cf. C9) — the returned job's status at
the moment `add` returns is `waiting`, `processing`, or `failed` (the
last when a synchronous no-handler failure exhausts `maxAttempts`); it is
never `completed`. -/
theorem c10_amended (env : HandlerEnv)
    (okAdd : QueueState → String → AddOptions → Prop) (n : String) (c : Nat)
    (st : QueueState) (jobType data : String) (o : AddOptions)
    (h : Reachable env okAdd (initQueue n c) st) (hstatus : o.status = none) :
    (∃ j, jobRef (add st jobType data o) st.nextId = some j ∧
      j.id = st.nextId ∧ j.status ≠ Status.completed) ∧
    (∃ j, jobRef (add (process (initQueue "q" 1) "t") "t" "d" {}) 0 = some j ∧
      j.status = Status.processing ∧ j.startedAt = some 0) := by
  constructor
  · have hinv := reachable_inv h
    have hidmem : st.nextId ∈ allIds (add st jobType data o) :=
      (add_ids_perm st jobType data o).mem_iff.mpr (List.mem_cons_self _ _)
    obtain ⟨x, hxmem, hxid⟩ := List.mem_map.mp hidmem
    have hfind : (jobRef (add st jobType data o) st.nextId).isSome = true := by
      rw [jobRef, List.find?_isSome]
      exact ⟨x, hxmem, by simp [hxid]⟩
    obtain ⟨j, hj⟩ := Option.isSome_iff_exists.mp hfind
    have hjmem : j ∈ allJobsList (add st jobType data o) :=
      List.mem_of_find?_eq_some hj
    have hjid : j.id = st.nextId := by simpa using List.find?_some hj
    refine ⟨j, hj, hjid, ?_⟩
    have hcases := processLoop_mem_cases
      (sortJobs (st.jobs ++ [mkJob st jobType data o]))
      { st with
        jobs := sortJobs (st.jobs ++ [mkJob st jobType data o])
        nextId := st.nextId + 1 } j hjmem
    rcases hcases with hl | hP | hC | hF | hT | hS
    · have := (sortJobs_perm _).mem_iff.mp hl
      rcases List.mem_append.mp this with hjw | hjnew
      · have := hinv.fresh j (jobs_sub_allJobsList st j hjw)
        omega
      · have hje : j = mkJob st jobType data o := by simpa using hjnew
        subst hje
        show (mkJob st jobType data o).status ≠ Status.completed
        simp [mkJob, hstatus]
    · have := hinv.fresh j (processing_sub_allJobsList st j hP)
      omega
    · have := hinv.fresh j (completed_sub_allJobsList st j hC)
      omega
    · have := hinv.fresh j (failed_sub_allJobsList st j hF)
      omega
    · have := hinv.fresh j (timersSnd_sub_allJobsList st j hT)
      omega
    · exact hS
  · exact ⟨c10ProcJob, by decide, by decide, by decide⟩

/-- Witness for C10 amended: the fresh job added to a brand-new queue is
not `completed` at the moment `add` returns. -/
theorem c10_witness :
    (∃ j, jobRef (add (initQueue "q" 1) "t" "d" {}) (initQueue "q" 1).nextId = some j ∧
      j.id = (initQueue "q" 1).nextId ∧ j.status ≠ Status.completed) ∧
    (∃ j, jobRef (add (process (initQueue "q" 1) "t") "t" "d" {}) 0 = some j ∧
      j.status = Status.processing ∧ j.startedAt = some 0) :=
  c10_amended envAll anyAdd "q" 1 (initQueue "q" 1) "t" "d" {} Relation.ReflTransGen.refl rfl

namespace JobQueue

/-- Adds that do not smuggle a `status` override through the options
spread. -/
def plainAdd : QueueState → String → AddOptions → Prop := fun _ _ o => o.status = none

/-- All waiting-array and timer-captured records carry status `waiting`;
`l` plays the role of the waiting array. -/
structure WaitInv (l : List Job) (st : QueueState) : Prop where
  jobsW : ∀ j ∈ l, j.status = Status.waiting
  timersW : ∀ p ∈ st.timers, p.2.status = Status.waiting

theorem processLoop_waitInv (l : List Job) (st : QueueState) (h : WaitInv l st) :
    WaitInv (processLoop l st).jobs (processLoop l st) := by
  induction l generalizing st with
  | nil => exact ⟨fun j hj => absurd hj (List.not_mem_nil j), h.timersW⟩
  | cons j rest ih =>
    simp only [processLoop]
    split_ifs with h1 h2 h3 h4
    · apply ih
      refine ⟨fun x hx => h.jobsW x (List.mem_cons_of_mem j hx), ?_⟩
      intro p hp
      rcases List.mem_append.mp hp with hpo | hpn
      · exact h.timersW p hpo
      · have hpe : p = (st.now + j.delay, j) := by simpa using hpn
        subst hpe
        exact h.jobsW j (List.mem_cons_self _ _)
    · exact ih _ ⟨fun x hx => h.jobsW x (List.mem_cons_of_mem j hx), h.timersW⟩
    · exact ih _ ⟨fun x hx => h.jobsW x (List.mem_cons_of_mem j hx), h.timersW⟩
    · apply ih
      refine ⟨fun x hx => h.jobsW x (List.mem_cons_of_mem j hx), ?_⟩
      intro p hp
      rcases List.mem_append.mp hp with hpo | hpn
      · exact h.timersW p hpo
      · have hpe : p = (st.now + 2 ^ (j.attempts + 1) * 1000, noHandlerRetryJob st j) := by
          simpa using hpn
        subst hpe
        rfl
    · exact ⟨h.jobsW, h.timersW⟩

theorem step_waitInv {env : HandlerEnv} {okAdd : QueueState → String → AddOptions → Prop}
    {st st' : QueueState} (hok : ∀ s t o, okAdd s t o → o.status = none)
    (hs : Step env okAdd st st') (h : WaitInv st.jobs st) : WaitInv st'.jobs st' := by
  cases hs with
  | register ty => exact ⟨h.jobsW, h.timersW⟩
  | enqueue ty d o hadd =>
    apply processLoop_waitInv
    refine ⟨?_, h.timersW⟩
    intro x hx
    have := (sortJobs_perm _).mem_iff.mp hx
    rcases List.mem_append.mp this with hxo | hxn
    · exact h.jobsW x hxo
    · have hxe : x = mkJob st ty d o := by simpa using hxn
      subst hxe
      simp [mkJob, hok st ty o hadd]
  | timer p hmem hdue =>
    rcases hf : st.timers.find? (fun q => q.2.id == p.2.id) with _ | q
    · simpa [timerFired, hf] using h
    · have hqmem : q ∈ st.timers := List.mem_of_find?_eq_some hf
      simp only [timerFired, hf]
      apply processLoop_waitInv
      refine ⟨?_, ?_⟩
      · intro x hx
        rcases List.mem_cons.mp hx with hxe | hxm
        · subst hxe
          exact h.timersW q hqmem
        · exact h.jobsW x hxm
      · intro r hr
        exact h.timersW r (List.mem_of_mem_filter hr)
  | settle id hmem =>
    rcases hf : st.processing.find? (fun j => j.id == id) with _ | j
    · simpa [handlerResolved, hf] using h
    · by_cases hs : env.succeeds j.jobType j.attempts
      · have he : handlerResolved env st id = startProcessing
            { st with
              processing := st.processing.filter (fun k => k.id ≠ id)
              pending := st.pending.filter (fun i => i ≠ id)
              completed := st.completed ++ [completedJob env st j] } := by
          simp [handlerResolved, hf, hs]
        rw [he]
        exact processLoop_waitInv _ _ ⟨h.jobsW, h.timersW⟩
      · by_cases hm : j.maxAttempts ≤ j.attempts + 1
        · have he : handlerResolved env st id = startProcessing
              { st with
                processing := st.processing.filter (fun k => k.id ≠ id)
                pending := st.pending.filter (fun i => i ≠ id)
                failed := st.failed ++ [failedJob env st j] } := by
            simp [handlerResolved, hf, hs, hm]
          rw [he]
          exact processLoop_waitInv _ _ ⟨h.jobsW, h.timersW⟩
        · have he : handlerResolved env st id = startProcessing
              { st with
                processing := st.processing.filter (fun k => k.id ≠ id)
                pending := st.pending.filter (fun i => i ≠ id)
                jobs := retryJob env st j :: st.jobs } := by
            simp [handlerResolved, hf, hs, hm]
          rw [he]
          apply processLoop_waitInv
          refine ⟨?_, h.timersW⟩
          intro x hx
          rcases List.mem_cons.mp hx with hxe | hxm
          · subst hxe
            rfl
          · exact h.jobsW x hxm
  | tick dt => exact ⟨h.jobsW, h.timersW⟩
  | sweep maxAge => exact ⟨h.jobsW, h.timersW⟩

/-- On every state reachable without status-overriding options, waiting
and timer-captured records have status `waiting`. -/
theorem reachable_waitInv {env : HandlerEnv} {n : String} {c : Nat} {st : QueueState}
    (h : Reachable env plainAdd (initQueue n c) st) : WaitInv st.jobs st := by
  induction h with
  | refl => exact ⟨fun j hj => absurd hj (List.not_mem_nil j), fun p hp => absurd hp (List.not_mem_nil p)⟩
  | tail hr hstep ih => exact step_waitInv (fun s t o ho => ho) hstep ih

end JobQueue

/-- C4 counterexample: a job whose initial delay has not yet elapsed is in
NO internal array.  Enqueuing with `{delay: 1000}` into an idle queue
moves the job straight into a `setTimeout` closure: it still has status
`waiting` and was not removed by any cleanup, yet `getJob` cannot find it
and `getStats` counts it in no bucket. -/
theorem c4_counterexample :
    getJob (add (process (initQueue "q" 1) "t") "t" "d" { delay := some 1000 }) 0 = none ∧
    (add (process (initQueue "q" 1) "t") "t" "d" { delay := some 1000 }).timers.map
      (fun p => (p.2.id, p.2.status)) = [(0, Status.waiting)] ∧
    (getStats (add (process (initQueue "q" 1) "t") "t" "d" { delay := some 1000 })).waiting = 0 ∧
    (getStats (add (process (initQueue "q" 1) "t") "t" "d" { delay := some 1000 })).processing = 0 := by
  decide

/-- C4 amended: on every state reachable without status-overriding options,
each of the four internal arrays holds exactly the records with the
matching status, ids are globally distinct (so a job is in at most one
array), `getJob` finds each of those records, and `getStats` counts each
exactly once — EXCEPT jobs waiting out a delay inside a `setTimeout`:
those have status `waiting` but sit in no array, `getJob` returns `none`
for them, and `getStats` omits them (the last conjunct accounts for the
discrepancy). -/
theorem c4_amended (env : HandlerEnv) (n : String) (c : Nat) (st : QueueState)
    (h : Reachable env plainAdd (initQueue n c) st) :
    (∀ j ∈ st.jobs, j.status = Status.waiting ∧ getJob st j.id = some j) ∧
    (∀ j ∈ st.processing, j.status = Status.processing ∧ getJob st j.id = some j) ∧
    (∀ j ∈ st.completed, j.status = Status.completed ∧ getJob st j.id = some j) ∧
    (∀ j ∈ st.failed, j.status = Status.failed ∧ getJob st j.id = some j) ∧
    (allIds st).Nodup ∧
    (getStats st).waiting + (getStats st).processing + (getStats st).completed +
        (getStats st).failed + st.timers.length = (allJobsList st).length ∧
    (∀ p ∈ st.timers, p.2.status = Status.waiting ∧ getJob st p.2.id = none) := by
  have hinv := reachable_inv h
  have hw := reachable_waitInv h
  have hn := hinv.nodup
  have hn' : ((st.jobs ++ st.processing ++ st.completed ++ st.failed).map Job.id ++
      (st.timers.map Prod.snd).map Job.id).Nodup := by
    simpa [looseJobs, List.map_append] using hn
  have hn4 : ((st.jobs ++ st.processing ++ st.completed ++ st.failed).map Job.id).Nodup :=
    hn'.of_append_left
  have hdisj := List.disjoint_of_nodup_append hn'
  have hfound : ∀ j ∈ st.jobs ++ st.processing ++ st.completed ++ st.failed,
      getJob st j.id = some j := by
    intro j hj
    exact find_eq_some_of_mem _ j j.id hn4 hj rfl
  refine ⟨?_, ?_, ?_, ?_, hinv.nodup, ?_, ?_⟩
  · intro j hj
    exact ⟨hw.jobsW j hj, hfound j (List.mem_append_left _ (List.mem_append_left _
      (List.mem_append_left _ hj)))⟩
  · intro j hj
    exact ⟨(hinv.procStatus j hj).1, hfound j (List.mem_append_left _ (List.mem_append_left _
      (List.mem_append_right _ hj)))⟩
  · intro j hj
    exact ⟨(hinv.compStatus j hj).1, hfound j (List.mem_append_left _
      (List.mem_append_right _ hj))⟩
  · intro j hj
    exact ⟨(hinv.failStatus j hj).1, hfound j (List.mem_append_right _ hj)⟩
  · simp [getStats, allJobsList]
    omega
  · intro p hp
    refine ⟨hw.timersW p hp, ?_⟩
    apply find_eq_none_of_not_mem
    intro hmem
    exact hdisj hmem (List.mem_map_of_mem Job.id (List.mem_map_of_mem Prod.snd hp))

/-- A concrete reachable state with a timer-captured job, witnessing C4
amended. -/
def c4WitState : QueueState :=
  add (process (initQueue "q" 1) "t") "t" "d" { delay := some 1000 }

/-- Witness for C4 amended at a state whose only job is timer-captured. -/
theorem c4_witness :
    (∀ j ∈ c4WitState.jobs, j.status = Status.waiting ∧ getJob c4WitState j.id = some j) ∧
    (∀ j ∈ c4WitState.processing,
      j.status = Status.processing ∧ getJob c4WitState j.id = some j) ∧
    (∀ j ∈ c4WitState.completed,
      j.status = Status.completed ∧ getJob c4WitState j.id = some j) ∧
    (∀ j ∈ c4WitState.failed, j.status = Status.failed ∧ getJob c4WitState j.id = some j) ∧
    (allIds c4WitState).Nodup ∧
    (getStats c4WitState).waiting + (getStats c4WitState).processing +
        (getStats c4WitState).completed + (getStats c4WitState).failed +
        c4WitState.timers.length = (allJobsList c4WitState).length ∧
    (∀ p ∈ c4WitState.timers,
      p.2.status = Status.waiting ∧ getJob c4WitState p.2.id = none) := by
  have h0 : Reachable envAll plainAdd (initQueue "q" 1) (process (initQueue "q" 1) "t") :=
    Relation.ReflTransGen.single (Step.register _ "t")
  have h1 : Reachable envAll plainAdd (initQueue "q" 1) c4WitState :=
    h0.tail (Step.enqueue _ "t" "d" { delay := some 1000 } rfl)
  exact c4_amended envAll "q" 1 c4WitState h1

namespace JobQueue

/-- Job `a` is dispatched before job `b` in the waiting array: strictly
higher priority, or equal priority and enqueued earlier (ids are assigned
in enqueue order). -/
def dispatchBefore (a b : Job) : Prop :=
  b.priority < a.priority ∨ (a.priority = b.priority ∧ a.id < b.id)

/-- Earlier-enqueued wins among equal priorities. -/
def idOrdered (a b : Job) : Prop := a.priority = b.priority → a.id < b.id

theorem dispatchBefore_idOrdered {a b : Job} (h : dispatchBefore a b) : idOrdered a b := by
  intro he
  rcases h with hlt | ⟨_, hid⟩
  · rw [he] at hlt
    exact absurd hlt (lt_irrefl _)
  · exact hid

theorem insertJob_pairwise (x : Job) (l : List Job)
    (hl : l.Pairwise dispatchBefore)
    (hx : ∀ y ∈ l, x.priority = y.priority → x.id < y.id) :
    (insertJob x l).Pairwise dispatchBefore := by
  induction l with
  | nil => simp [insertJob]
  | cons y s ih =>
    rw [insertJob]
    split_ifs with hp
    · have hys : s.Pairwise dispatchBefore := (List.pairwise_cons.mp hl).2
      have hyhead : ∀ z ∈ s, dispatchBefore y z := (List.pairwise_cons.mp hl).1
      refine List.pairwise_cons.mpr ⟨?_,
        ih hys (fun z hz he => hx z (List.mem_cons_of_mem y hz) he)⟩
      intro z hz
      rcases List.mem_cons.mp ((insertJob_perm x s).mem_iff.mp hz) with hze | hzs
      · subst hze
        exact Or.inl hp
      · exact hyhead z hzs
    · have hyx : dispatchBefore x y := by
        rcases lt_or_eq_of_le (not_lt.mp hp) with hlt | heq
        · exact Or.inl hlt
        · exact Or.inr ⟨heq.symm, hx y (List.mem_cons_self _ _) heq.symm⟩
      refine List.pairwise_cons.mpr ⟨?_, hl⟩
      intro z hz
      rcases List.mem_cons.mp hz with hze | hzs
      · subst hze
        exact hyx
      · have hyz := (List.pairwise_cons.mp hl).1 z hzs
        rcases hyz with hlt | ⟨heq, hid⟩
        · exact Or.inl (lt_of_lt_of_le hlt (not_lt.mp hp))
        · rcases lt_or_eq_of_le (not_lt.mp hp) with hlt2 | heq2
          · exact Or.inl (heq ▸ hlt2)
          · exact Or.inr ⟨heq2.symm.trans heq, hx z (List.mem_cons_of_mem y hzs)
              (heq2.symm.trans heq)⟩

/-- The stable sort of a list whose equal-priority entries are id-ordered
is fully dispatch-ordered. -/
theorem sortJobs_pairwise (l : List Job) (h : l.Pairwise idOrdered) :
    (sortJobs l).Pairwise dispatchBefore := by
  induction l with
  | nil => simp [sortJobs]
  | cons x s ih =>
    rw [sortJobs]
    refine insertJob_pairwise x (sortJobs s) (ih (List.pairwise_cons.mp h).2) ?_
    intro y hy he
    exact (List.pairwise_cons.mp h).1 y ((sortJobs_perm s).mem_iff.mp hy) he

/-- The loop only consumes the waiting array from the front. -/
theorem processLoop_jobs_suffix (l : List Job) (st : QueueState) :
    (processLoop l st).jobs <:+ l := by
  induction l generalizing st with
  | nil => exact List.nil_suffix
  | cons j rest ih =>
    simp only [processLoop]
    split_ifs
    · exact (ih _).trans (List.suffix_cons j rest)
    · exact (ih _).trans (List.suffix_cons j rest)
    · exact (ih _).trans (List.suffix_cons j rest)
    · exact (ih _).trans (List.suffix_cons j rest)
    · exact List.suffix_refl _

/-- When every waiting job is ready (no delay, handler registered) the
loop registers no timers. -/
theorem processLoop_timers_of_ready (l : List Job) (st : QueueState)
    (h : ∀ j ∈ l, j.delay = 0 ∧ j.jobType ∈ st.handlers) :
    (processLoop l st).timers = st.timers := by
  induction l generalizing st with
  | nil => rfl
  | cons j rest ih =>
    have hj := h j (List.mem_cons_self _ _)
    simp only [processLoop]
    split_ifs with h1 h2 h3 h4
    · rw [hj.1] at h2
      exact absurd h2 (lt_irrefl 0)
    · exact ih _ (fun x hx => h x (List.mem_cons_of_mem j hx))
    · simp [hj.2] at h3
    · simp [hj.2] at h3
    · rfl

/-- Shape of a queue whose history never lets a job jump the order: the
waiting array is dispatch-ordered, every waiting job is ready, and no
timer is pending. -/
structure OrderInv (st : QueueState) : Prop where
  sorted : st.jobs.Pairwise dispatchBefore
  ready : ∀ j ∈ st.jobs, j.delay = 0 ∧ j.jobType ∈ st.handlers
  noTimers : st.timers = []

/-- Calls to `add` that target a registered type and ask for no initial
delay. -/
def orderlyAdd : QueueState → String → AddOptions → Prop :=
  fun st ty o => ty ∈ st.handlers ∧ o.delay.getD 0 = 0

end JobQueue

namespace JobQueue

theorem step_orderInv {env : HandlerEnv} {st st' : QueueState}
    (henv : ∀ t a, env.succeeds t a = true)
    (hs : Step env orderlyAdd st st') (hinv : InvCore st) (h : OrderInv st) : OrderInv st' := by
  cases hs with
  | register ty =>
    exact ⟨h.sorted,
      fun j hj => ⟨(h.ready j hj).1, List.mem_cons_of_mem ty (h.ready j hj).2⟩,
      h.noTimers⟩
  | enqueue ty d o hok =>
    have hsorted' : (sortJobs (st.jobs ++ [mkJob st ty d o])).Pairwise dispatchBefore := by
      apply sortJobs_pairwise
      rw [List.pairwise_append]
      refine ⟨h.sorted.imp (fun hab => dispatchBefore_idOrdered hab), by simp, ?_⟩
      intro a ha b hb
      have hbnew : b = mkJob st ty d o := by simpa using hb
      subst hbnew
      intro he
      show a.id < st.nextId
      exact hinv.fresh a (jobs_sub_allJobsList st a ha)
    have hready' : ∀ j ∈ sortJobs (st.jobs ++ [mkJob st ty d o]),
        j.delay = 0 ∧ j.jobType ∈ st.handlers := by
      intro j hj
      rcases List.mem_append.mp ((sortJobs_perm _).mem_iff.mp hj) with hjo | hjn
      · exact h.ready j hjo
      · have hje : j = mkJob st ty d o := by simpa using hjn
        subst hje
        exact ⟨hok.2, hok.1⟩
    refine ⟨?_, ?_, ?_⟩
    · exact hsorted'.sublist (processLoop_jobs_suffix _ _).sublist
    · intro j hj
      have hjm := (processLoop_jobs_suffix _ _).subset hj
      have hr := hready' j hjm
      refine ⟨hr.1, ?_⟩
      have hh : (add st ty d o).handlers = st.handlers := processLoop_handlers _ _
      rw [hh]
      exact hr.2
    · show (add st ty d o).timers = []
      unfold add startProcessing
      rw [processLoop_timers_of_ready]
      · exact h.noTimers
      · exact hready'
  | timer p hmem hdue =>
    rw [h.noTimers] at hmem
    exact absurd hmem (List.not_mem_nil p)
  | settle id hmem =>
    rcases hf : st.processing.find? (fun j => j.id == id) with _ | j
    · have he : handlerResolved env st id = st := by simp [handlerResolved, hf]
      rw [he]
      exact h
    · have hsucc := henv j.jobType j.attempts
      have he : handlerResolved env st id = startProcessing
          { st with
            processing := st.processing.filter (fun k => k.id ≠ id)
            pending := st.pending.filter (fun i => i ≠ id)
            completed := st.completed ++ [completedJob env st j] } := by
        simp [handlerResolved, hf, hsucc]
      rw [he]
      refine ⟨?_, ?_, ?_⟩
      · exact h.sorted.sublist (processLoop_jobs_suffix _ _).sublist
      · intro x hx
        have hxm := (processLoop_jobs_suffix _ _).subset hx
        have hr := h.ready x hxm
        refine ⟨hr.1, ?_⟩
        have hh : (startProcessing
            { st with
              processing := st.processing.filter (fun k => k.id ≠ id)
              pending := st.pending.filter (fun i => i ≠ id)
              completed := st.completed ++ [completedJob env st j] }).handlers =
            st.handlers := processLoop_handlers _ _
        rw [hh]
        exact hr.2
      · show (startProcessing _).timers = []
        unfold startProcessing
        rw [processLoop_timers_of_ready]
        · exact h.noTimers
        · exact h.ready
  | tick dt => exact ⟨h.sorted, h.ready, h.noTimers⟩
  | sweep maxAge => exact ⟨h.sorted, h.ready, h.noTimers⟩

/-- On traces whose `add`s target registered types with no initial delay
and whose handlers always fulfil, the waiting array stays dispatch-ordered
and timer-free. -/
theorem reachable_orderInv {env : HandlerEnv} {n : String} {c : Nat} {st : QueueState}
    (henv : ∀ t a, env.succeeds t a = true)
    (h : Reachable env orderlyAdd (initQueue n c) st) : OrderInv st := by
  induction h with
  | refl =>
    exact ⟨List.Pairwise.nil, fun j hj => absurd hj (List.not_mem_nil j), rfl⟩
  | tail hr hstep ih => exact step_orderInv henv hstep (reachable_inv hr) ih

end JobQueue

namespace JobQueue

/-- Formalisation of the C1 dispatch claim on a queue: whenever a step
starts a job (the job newly appears in the processing array), every job
that was waiting before the step and is still waiting after it has
priority at most the started job's. -/
def DispatchMaxPriority (env : HandlerEnv)
    (okAdd : QueueState → String → AddOptions → Prop) (init : QueueState) : Prop :=
  ∀ st st', Relation.ReflTransGen (Step env okAdd) init st → Step env okAdd st st' →
    ∀ j, j ∈ st'.processing → (∀ i ∈ st.processing, i.id ≠ j.id) →
      ∀ y, y ∈ st.jobs → y ∈ st'.jobs → y.priority ≤ j.priority

/-- The C1 counterexample trace: on a concurrency-1 queue, job 1 is
enqueued with a 1000 ms delay, waits out its delay in a timer while jobs
are running, is re-inserted at the FRONT of the waiting array when the
timer fires, and then starts before the higher-priority job 3 that had
been waiting in the array all along. -/
def c1s2 : QueueState :=
  add (add (process (initQueue "q" 1) "t") "t" "a" {}) "t" "b" { delay := some 1000 }

def c1s5 : QueueState :=
  add (add (handlerResolved envAll c1s2 0) "t" "c" {}) "t" "e" { priority := some 5 }

def c1s7 : QueueState := timerFired (tick c1s5 1000) 1

def c1s8 : QueueState := handlerResolved envAll c1s7 2

/-- The record of job 1 while waiting in its delay timer. -/
def c1TimerJob : Job :=
  { id := 1
    jobType := "t"
    data := "b"
    status := Status.waiting
    priority := 0
    attempts := 0
    maxAttempts := 3
    delay := 1000
    createdAt := 0 }

/-- The record of job 1 once the scheduler starts it at time 1000. -/
def c1StartedJob : Job :=
  { id := 1
    jobType := "t"
    data := "b"
    status := Status.processing
    priority := 0
    attempts := 0
    maxAttempts := 3
    delay := 0
    createdAt := 0
    startedAt := some 1000 }

/-- The record of job 3, priority 5, still waiting when job 1 starts. -/
def c1WaitingJob : Job :=
  { id := 3
    jobType := "t"
    data := "e"
    status := Status.waiting
    priority := 5
    attempts := 0
    maxAttempts := 3
    delay := 0
    createdAt := 0 }

end JobQueue

/-- C1 counterexample: the dispatch-order claim fails once a delayed (or
retried) job is re-inserted: `unshift` puts it at the front of the waiting
array without re-sorting, so priority-0 job 1 starts while priority-5
job 3 goes on waiting. -/
theorem c1_counterexample :
    ¬ DispatchMaxPriority envAll anyAdd (process (initQueue "q" 1) "t") := by
  intro hclaim
  have hreach : Relation.ReflTransGen (Step envAll anyAdd)
      (process (initQueue "q" 1) "t") c1s7 := by
    have r1 : Relation.ReflTransGen (Step envAll anyAdd) (process (initQueue "q" 1) "t")
        (add (process (initQueue "q" 1) "t") "t" "a" {}) :=
      Relation.ReflTransGen.single (Step.enqueue _ "t" "a" {} trivial)
    have r2 : Relation.ReflTransGen (Step envAll anyAdd) (process (initQueue "q" 1) "t")
        c1s2 := r1.tail (Step.enqueue _ "t" "b" { delay := some 1000 } trivial)
    have r3 : Relation.ReflTransGen (Step envAll anyAdd) (process (initQueue "q" 1) "t")
        (handlerResolved envAll c1s2 0) := r2.tail (Step.settle _ 0 (by decide))
    have r4 : Relation.ReflTransGen (Step envAll anyAdd) (process (initQueue "q" 1) "t")
        (add (handlerResolved envAll c1s2 0) "t" "c" {}) :=
      r3.tail (Step.enqueue _ "t" "c" {} trivial)
    have r5 : Relation.ReflTransGen (Step envAll anyAdd) (process (initQueue "q" 1) "t")
        c1s5 := r4.tail (Step.enqueue _ "t" "e" { priority := some 5 } trivial)
    have r6 : Relation.ReflTransGen (Step envAll anyAdd) (process (initQueue "q" 1) "t")
        (tick c1s5 1000) := r5.tail (Step.tick _ 1000)
    exact r6.tail (Step.timer _ (1000, c1TimerJob) (by decide) (by decide))
  have hstep : Step envAll anyAdd c1s7 c1s8 := Step.settle _ 2 (by decide)
  have h5le0 := hclaim c1s7 c1s8 hreach hstep c1StartedJob (by decide) (by decide)
    c1WaitingJob (by decide) (by decide)
  exact absurd h5le0 (by decide)

/-- C1 amended: the priority order is guaranteed only for jobs that enter
the waiting array through `add` alone.  On any trace whose `add`s target
registered types with no initial delay and whose handlers always fulfil —
so no job is ever re-inserted by a timer — the waiting array is sorted by
descending priority with FIFO (enqueue-order) tie-break, hence the
scheduler, which always dispatches the array head, starts a maximal-
priority, earliest-enqueued job (first two conjuncts).  A job re-inserted
after a delay or retry instead goes to the FRONT of the array unsorted:
when the timer fires with all concurrency slots busy, the fired job
becomes the new head regardless of any waiting job's priority (third
conjunct), which is what breaks the original claim. -/
theorem c1_amended (env : HandlerEnv) (n : String) (c : Nat) (st : QueueState)
    (henv : ∀ t a, env.succeeds t a = true)
    (h : Reachable env orderlyAdd (initQueue n c) st) :
    st.jobs.Pairwise dispatchBefore ∧
    (∀ j rest, st.jobs = j :: rest →
      ∀ y ∈ rest, y.priority ≤ j.priority ∧ (y.priority = j.priority → j.id < y.id)) ∧
    (∀ (st₀ : QueueState) (p : Nat × Job),
      st₀.timers.find? (fun q => q.2.id == p.2.id) = some p →
      st₀.concurrency ≤ st₀.processing.length →
      (timerFired st₀ p.2.id).jobs = { p.2 with delay := 0 } :: st₀.jobs) := by
  have ho := reachable_orderInv henv h
  refine ⟨ho.sorted, ?_, ?_⟩
  · intro j rest hje y hy
    have hsorted := ho.sorted
    rw [hje] at hsorted
    have hd := (List.pairwise_cons.mp hsorted).1 y hy
    rcases hd with hlt | ⟨heq, hid⟩
    · exact ⟨le_of_lt hlt, fun he => absurd (he ▸ hlt) (lt_irrefl _)⟩
    · exact ⟨le_of_eq heq.symm, fun _ => hid⟩
  · intro st₀ p hf hfull
    unfold timerFired
    rw [hf]
    simp [startProcessing, processLoop, Nat.not_lt.mpr hfull]

/-- The C1 witness state: two sorted waiting jobs behind a busy slot. -/
def c1WitState : QueueState :=
  add (add (add (process (initQueue "q" 1) "t") "t" "a" {}) "t" "b" { priority := some 2 })
    "t" "c" { priority := some 7 }

/-- Witness for C1 amended at a concrete orderly trace. -/
theorem c1_witness :
    c1WitState.jobs.Pairwise dispatchBefore ∧
    (∀ j rest, c1WitState.jobs = j :: rest →
      ∀ y ∈ rest, y.priority ≤ j.priority ∧ (y.priority = j.priority → j.id < y.id)) ∧
    (∀ (st₀ : QueueState) (p : Nat × Job),
      st₀.timers.find? (fun q => q.2.id == p.2.id) = some p →
      st₀.concurrency ≤ st₀.processing.length →
      (timerFired st₀ p.2.id).jobs = { p.2 with delay := 0 } :: st₀.jobs) := by
  have h0 : Reachable envAll orderlyAdd (initQueue "q" 1) (process (initQueue "q" 1) "t") :=
    Relation.ReflTransGen.single (Step.register _ "t")
  have h1 : Reachable envAll orderlyAdd (initQueue "q" 1)
      (add (process (initQueue "q" 1) "t") "t" "a" {}) :=
    h0.tail (Step.enqueue _ "t" "a" {} ⟨by decide, rfl⟩)
  have h2 : Reachable envAll orderlyAdd (initQueue "q" 1)
      (add (add (process (initQueue "q" 1) "t") "t" "a" {}) "t" "b" { priority := some 2 }) :=
    h1.tail (Step.enqueue _ "t" "b" { priority := some 2 } ⟨by decide, rfl⟩)
  have h3 : Reachable envAll orderlyAdd (initQueue "q" 1) c1WitState :=
    h2.tail (Step.enqueue _ "t" "c" { priority := some 7 } ⟨by decide, rfl⟩)
  exact c1_amended envAll "q" 1 c1WitState (fun t a => rfl) h3

namespace JobQueue

/-- Logical clock of the canonical single-job retry trace after `i`
exponential backoffs: `2^1*1000 + ... + 2^i*1000`. -/
def backoffClock : Nat → Nat
  | 0 => 0
  | i + 1 => backoffClock i + 2 ^ (i + 1) * 1000

/-- Handlers for the canonical retry trace: fail the first `k` invocations
(`attempts < k`), succeed afterwards. -/
def retryEnv (k : Nat) : HandlerEnv :=
  { succeeds := fun _ a => k ≤ a
    resultOf := fun _ _ => "ok"
    errorOf := fun _ _ => "boom" }

/-- The canonical job record while its `(i+1)`-th attempt runs
(`attempts = i` counts the failures so far). -/
def retryProcJob (maxA i : Nat) : Job :=
  { id := 0
    jobType := "t"
    data := "d"
    status := Status.processing
    priority := 0
    attempts := i
    maxAttempts := maxA
    delay := 0
    createdAt := 0
    startedAt := some (backoffClock i)
    error := if i = 0 then none else some "boom"
    errorStack := if i = 0 then none else some "boom" }

/-- The canonical trace state while attempt `i+1` runs. -/
def retryProcState (maxA i : Nat) : QueueState :=
  { name := "q"
    concurrency := 1
    jobs := []
    processing := [retryProcJob maxA i]
    completed := []
    failed := []
    handlers := ["t"]
    timers := []
    pending := [0]
    nextId := 1
    now := backoffClock i }

/-- The canonical record captured in its `(i+1)`-th backoff timer, after
`i+1` failures: backoff `2^(i+1)*1000` ms from the just-incremented
`attempts`. -/
def backoffJob (maxA i : Nat) : Job :=
  { id := 0
    jobType := "t"
    data := "d"
    status := Status.waiting
    priority := 0
    attempts := i + 1
    maxAttempts := maxA
    delay := 2 ^ (i + 1) * 1000
    createdAt := 0
    startedAt := some (backoffClock i)
    error := some "boom"
    errorStack := some "boom" }

/-- The canonical trace state while the `(i+1)`-th backoff timer pends. -/
def backoffState (maxA i : Nat) : QueueState :=
  { name := "q"
    concurrency := 1
    jobs := []
    processing := []
    completed := []
    failed := []
    handlers := ["t"]
    timers := [(backoffClock (i + 1), backoffJob maxA i)]
    pending := []
    nextId := 1
    now := backoffClock i }

/-- The canonical job record after `k` failures and a final fulfilment. -/
def retryDoneJob (maxA k : Nat) : Job :=
  { id := 0
    jobType := "t"
    data := "d"
    status := Status.completed
    priority := 0
    attempts := k
    maxAttempts := maxA
    delay := 0
    createdAt := 0
    startedAt := some (backoffClock k)
    completedAt := some (backoffClock k)
    result := some "ok"
    error := if k = 0 then none else some "boom"
    errorStack := if k = 0 then none else some "boom" }

/-- Final state of the canonical fail-k-times-then-succeed trace. -/
def retryDoneState (maxA k : Nat) : QueueState :=
  { name := "q"
    concurrency := 1
    jobs := []
    processing := []
    completed := [retryDoneJob maxA k]
    failed := []
    handlers := ["t"]
    timers := []
    pending := []
    nextId := 1
    now := backoffClock k }

/-- The canonical job record after the always-failing handler exhausts
`maxAttempts` (with `maxAttempts = 0` already the first failure is
terminal, so the final `attempts` is `maxAttempts - 1 + 1 = max maxAttempts 1`). -/
def failDoneJob (maxA : Nat) : Job :=
  { id := 0
    jobType := "t"
    data := "d"
    status := Status.failed
    priority := 0
    attempts := maxA - 1 + 1
    maxAttempts := maxA
    delay := 0
    createdAt := 0
    startedAt := some (backoffClock (maxA - 1))
    failedAt := some (backoffClock (maxA - 1))
    error := some "boom"
    errorStack := some "boom" }

/-- Final state of the canonical always-failing trace. -/
def failDoneState (maxA : Nat) : QueueState :=
  { name := "q"
    concurrency := 1
    jobs := []
    processing := []
    completed := []
    failed := [failDoneJob maxA]
    handlers := ["t"]
    timers := []
    pending := []
    nextId := 1
    now := backoffClock (maxA - 1) }

end JobQueue

namespace JobQueue

theorem retryBase_eq (maxA : Nat) :
    add (process (initQueue "q" 1) "t") "t" "d" { maxAttempts := some maxA } =
      retryProcState maxA 0 := by
  simp [add, process, initQueue, mkJob, sortJobs, insertJob, startProcessing, processLoop,
    dispatchedJob, retryProcState, retryProcJob, backoffClock]

theorem retryFail_eq (env : HandlerEnv) (maxA i : Nat)
    (hF : env.succeeds "t" i = false) (hE : env.errorOf "t" i = "boom")
    (hi : i + 1 < maxA) :
    handlerResolved env (retryProcState maxA i) 0 = backoffState maxA i := by
  have hpos : 0 < 2 ^ (i + 1) * 1000 := by positivity
  have hnle : ¬ (maxA ≤ i + 1) := Nat.not_le.mpr hi
  simp [handlerResolved, retryProcState, retryProcJob, backoffState, backoffJob,
    retryJob, startProcessing, processLoop, hF, hE, hpos, hnle, backoffClock]

theorem retryTimer_eq (maxA i : Nat) :
    timerFired (tick (backoffState maxA i) (2 ^ (i + 1) * 1000)) 0 =
      retryProcState maxA (i + 1) := by
  simp [timerFired, tick, backoffState, backoffJob, retryProcState, retryProcJob,
    startProcessing, processLoop, dispatchedJob, backoffClock]

theorem retryDone_eq (env : HandlerEnv) (maxA k : Nat)
    (hS : env.succeeds "t" k = true) (hR : env.resultOf "t" k = "ok") :
    handlerResolved env (retryProcState maxA k) 0 = retryDoneState maxA k := by
  simp [handlerResolved, retryProcState, retryProcJob, retryDoneState, retryDoneJob,
    completedJob, startProcessing, processLoop, hS, hR]

theorem failDone_eq (env : HandlerEnv) (maxA : Nat)
    (hF : env.succeeds "t" (maxA - 1) = false) (hE : env.errorOf "t" (maxA - 1) = "boom") :
    handlerResolved env (retryProcState maxA (maxA - 1)) 0 = failDoneState maxA := by
  have hle : maxA ≤ (maxA - 1) + 1 := by omega
  simp [handlerResolved, retryProcState, retryProcJob, failDoneState, failDoneJob,
    failedJob, startProcessing, processLoop, hF, hE, hle]

/-- The canonical single-job trace reaches the state where attempt `i+1`
is running, provided the first `i` invocations fail with "boom" and the
retry ceiling is not hit on the way. -/
theorem retryProc_reachable (env : HandlerEnv) (maxA i : Nat)
    (hF : ∀ m, m < i → env.succeeds "t" m = false)
    (hE : ∀ m, m < i → env.errorOf "t" m = "boom")
    (hmax : ∀ m, m < i → m + 1 < maxA) :
    Reachable env anyAdd (initQueue "q" 1) (retryProcState maxA i) := by
  induction i with
  | zero =>
    have h0 : Reachable env anyAdd (initQueue "q" 1) (process (initQueue "q" 1) "t") :=
      Relation.ReflTransGen.single (Step.register _ "t")
    have h1 := h0.tail (Step.enqueue _ "t" "d" { maxAttempts := some maxA } trivial)
    rwa [retryBase_eq] at h1
  | succ i ih =>
    have hr := ih (fun m hm => hF m (Nat.lt_succ_of_lt hm))
      (fun m hm => hE m (Nat.lt_succ_of_lt hm)) (fun m hm => hmax m (Nat.lt_succ_of_lt hm))
    have h2 := hr.tail (Step.settle _ 0 (by simp [retryProcState]))
    rw [retryFail_eq env maxA i (hF i (Nat.lt_succ_self i)) (hE i (Nat.lt_succ_self i))
      (hmax i (Nat.lt_succ_self i))] at h2
    have h3 := h2.tail (Step.tick _ (2 ^ (i + 1) * 1000))
    have hstep : Step env anyAdd (tick (backoffState maxA i) (2 ^ (i + 1) * 1000))
        (timerFired (tick (backoffState maxA i) (2 ^ (i + 1) * 1000)) 0) :=
      Step.timer _ (backoffClock (i + 1), backoffJob maxA i)
        (by simp [tick, backoffState]) (by simp [tick, backoffState, backoffClock])
    have h4 := h3.tail hstep
    rwa [retryTimer_eq] at h4

end JobQueue

/-- C2 counterexample: a handler that fails exactly once (k = 1) and then
succeeds leaves the job `completed` with `attempts = 1`, not `k + 1 = 2`:
the success path of `processJob` never increments `attempts`, so
`attempts` counts failed invocations only. -/
theorem c2_counterexample :
    (handlerResolved (retryEnv 1) (timerFired (tick (handlerResolved (retryEnv 1)
        (add (process (initQueue "q" 1) "t") "t" "d" {}) 0) 2000) 0) 0).completed.map
      (fun j => (j.status, j.attempts, j.result)) = [(Status.completed, 1, some "ok")] ∧
    ¬ ((handlerResolved (retryEnv 1) (timerFired (tick (handlerResolved (retryEnv 1)
        (add (process (initQueue "q" 1) "t") "t" "d" {}) 0) 2000) 0) 0).completed.map
      (fun j => j.attempts) = [2]) := by
  decide

/-- C2 amended: a handler failing exactly `k < maxAttempts` times and then
succeeding leaves the job `completed` with `attempts = k` (`attempts`
counts failed handler invocations; the success path does not increment
it), and before each re-attempt the scheduled backoff delay after the
`(i+1)`-th failure is `2^(i+1) * 1000` ms, due exactly that long after the
failure (so the delay before the `(i+1)`-th invocation is `2^i * 1000` ms
for `1 ≤ i ≤ k`).  The first conjunct exhibits the full run as a legal
schedule; the third visits every intermediate backoff state. -/
theorem c2_amended (k maxA : Nat) (hk : k < maxA) :
    Reachable (retryEnv k) anyAdd (initQueue "q" 1) (retryDoneState maxA k) ∧
    (retryDoneState maxA k).completed.map (fun j => (j.status, j.attempts, j.result)) =
      [(Status.completed, k, some "ok")] ∧
    (∀ i, i < k →
      Reachable (retryEnv k) anyAdd (initQueue "q" 1) (backoffState maxA i) ∧
      (backoffState maxA i).timers.map (fun p => (p.2.delay, p.1)) =
        [(2 ^ (i + 1) * 1000, (backoffState maxA i).now + 2 ^ (i + 1) * 1000)]) := by
  have hF : ∀ m, m < k → (retryEnv k).succeeds "t" m = false := by
    intro m hm
    simp only [retryEnv, decide_eq_false_iff_not]
    omega
  have hE : ∀ m, m < k → (retryEnv k).errorOf "t" m = "boom" := fun m hm => rfl
  have hmax : ∀ m, m < k → m + 1 < maxA := by omega
  refine ⟨?_, by simp [retryDoneState, retryDoneJob], ?_⟩
  · have hr := retryProc_reachable (retryEnv k) maxA k hF hE hmax
    have h2 := hr.tail (Step.settle _ 0 (by simp [retryProcState]))
    rwa [retryDone_eq (retryEnv k) maxA k (by simp [retryEnv]) rfl] at h2
  · intro i hi
    have hr := retryProc_reachable (retryEnv k) maxA i
      (fun m hm => hF m (hm.trans hi)) (fun m hm => rfl)
      (fun m hm => hmax m (hm.trans hi))
    have h2 := hr.tail (Step.settle _ 0 (by simp [retryProcState]))
    rw [retryFail_eq (retryEnv k) maxA i (hF i hi) rfl (hmax i hi)] at h2
    refine ⟨h2, ?_⟩
    simp [backoffState, backoffJob, backoffClock]

/-- Witness for C2 amended at `k = 2`, `maxAttempts = 3`. -/
theorem c2_witness :
    Reachable (retryEnv 2) anyAdd (initQueue "q" 1) (retryDoneState 3 2) ∧
    (retryDoneState 3 2).completed.map (fun j => (j.status, j.attempts, j.result)) =
      [(Status.completed, 2, some "ok")] ∧
    (∀ i, i < 2 →
      Reachable (retryEnv 2) anyAdd (initQueue "q" 1) (backoffState 3 i) ∧
      (backoffState 3 i).timers.map (fun p => (p.2.delay, p.1)) =
        [(2 ^ (i + 1) * 1000, (backoffState 3 i).now + 2 ^ (i + 1) * 1000)]) :=
  c2_amended 2 3 (by omega)

namespace JobQueue


/-- Ids in the components from which the scheduler can still draw work:
the waiting array, the processing array, the pending timers and the
awaited handler invocations. -/
def liveIds (st : QueueState) : List Nat :=
  st.jobs.map Job.id ++ st.processing.map Job.id ++
    st.timers.map (fun p => p.2.id) ++ st.pending

theorem mem_liveIds_jobs {st : QueueState} {i : Nat} (h : i ∈ st.jobs.map Job.id) :
    i ∈ liveIds st :=
  List.mem_append_left _ (List.mem_append_left _ (List.mem_append_left _ h))

theorem mem_liveIds_processing {st : QueueState} {i : Nat}
    (h : i ∈ st.processing.map Job.id) : i ∈ liveIds st :=
  List.mem_append_left _ (List.mem_append_left _ (List.mem_append_right _ h))

theorem mem_liveIds_timers {st : QueueState} {i : Nat}
    (h : i ∈ st.timers.map (fun p => p.2.id)) : i ∈ liveIds st :=
  List.mem_append_left _ (List.mem_append_right _ h)

theorem mem_liveIds_pending {st : QueueState} {i : Nat} (h : i ∈ st.pending) :
    i ∈ liveIds st :=
  List.mem_append_right _ h

theorem liveIds_cases {st : QueueState} {i : Nat} (h : i ∈ liveIds st) :
    i ∈ st.jobs.map Job.id ∨ i ∈ st.processing.map Job.id ∨
      i ∈ st.timers.map (fun p => p.2.id) ∨ i ∈ st.pending := by
  rcases List.mem_append.mp h with h3 | hpend
  · rcases List.mem_append.mp h3 with h2 | hT
    · rcases List.mem_append.mp h2 with h1 | hP
      · exact Or.inl h1
      · exact Or.inr (Or.inl hP)
    · exact Or.inr (Or.inr (Or.inl hT))
  · exact Or.inr (Or.inr (Or.inr hpend))

/-- The loop can move ids into the live components only from the waiting
list it consumes. -/
theorem processLoop_liveIds (l : List Job) (st : QueueState) :
    ∀ i ∈ liveIds (processLoop l st), i ∈ l.map Job.id ∨ i ∈ liveIds st := by
  induction l generalizing st with
  | nil =>
    intro i hi
    simp only [processLoop] at hi
    refine Or.inr ?_
    rcases liveIds_cases hi with hj | hP | hT | hpd
    · have hj' : i ∈ List.map Job.id ([] : List Job) := hj
      simp at hj'
    · exact mem_liveIds_processing hP
    · exact mem_liveIds_timers hT
    · exact mem_liveIds_pending hpd
  | cons j rest ih =>
    intro i hi
    simp only [processLoop] at hi
    split_ifs at hi with h1 h2 h3 h4
    · rcases ih _ i hi with hrest | hlive
      · refine Or.inl ?_
        simp only [List.map_cons]
        exact List.mem_cons_of_mem _ hrest
      · rcases liveIds_cases hlive with hj | hP | hT | hpd
        · exact Or.inr (mem_liveIds_jobs hj)
        · exact Or.inr (mem_liveIds_processing hP)
        · have hT' : i ∈ (st.timers ++ [(st.now + j.delay, j)]).map (fun p => p.2.id) := hT
          rcases List.mem_map.mp hT' with ⟨q, hq, hqe⟩
          subst hqe
          rcases List.mem_append.mp hq with hqo | hqn
          · exact Or.inr (mem_liveIds_timers (List.mem_map_of_mem _ hqo))
          · have hqj : q = (st.now + j.delay, j) := List.mem_singleton.mp hqn
            subst hqj
            refine Or.inl ?_
            simp
        · exact Or.inr (mem_liveIds_pending hpd)
    · rcases ih _ i hi with hrest | hlive
      · refine Or.inl ?_
        simp only [List.map_cons]
        exact List.mem_cons_of_mem _ hrest
      · rcases liveIds_cases hlive with hj | hP | hT | hpd
        · exact Or.inr (mem_liveIds_jobs hj)
        · have hP' : i ∈ (st.processing ++ [dispatchedJob st j]).map Job.id := hP
          rcases List.mem_map.mp hP' with ⟨q, hq, hqe⟩
          subst hqe
          rcases List.mem_append.mp hq with hqo | hqn
          · exact Or.inr (mem_liveIds_processing (List.mem_map_of_mem _ hqo))
          · have hqj : q = dispatchedJob st j := List.mem_singleton.mp hqn
            subst hqj
            refine Or.inl ?_
            simp [dispatchedJob]
        · exact Or.inr (mem_liveIds_timers hT)
        · have hpd' : i ∈ st.pending ++ [j.id] := hpd
          rcases List.mem_append.mp hpd' with hpo | hpn
          · exact Or.inr (mem_liveIds_pending hpo)
          · have : i = j.id := List.mem_singleton.mp hpn
            subst this
            refine Or.inl ?_
            simp
    · rcases ih _ i hi with hrest | hlive
      · refine Or.inl ?_
        simp only [List.map_cons]
        exact List.mem_cons_of_mem _ hrest
      · rcases liveIds_cases hlive with hj | hP | hT | hpd
        · exact Or.inr (mem_liveIds_jobs hj)
        · exact Or.inr (mem_liveIds_processing hP)
        · exact Or.inr (mem_liveIds_timers hT)
        · exact Or.inr (mem_liveIds_pending hpd)
    · rcases ih _ i hi with hrest | hlive
      · refine Or.inl ?_
        simp only [List.map_cons]
        exact List.mem_cons_of_mem _ hrest
      · rcases liveIds_cases hlive with hj | hP | hT | hpd
        · exact Or.inr (mem_liveIds_jobs hj)
        · exact Or.inr (mem_liveIds_processing hP)
        · have hT' : i ∈ (st.timers ++
              [(st.now + 2 ^ (j.attempts + 1) * 1000, noHandlerRetryJob st j)]).map
              (fun p => p.2.id) := hT
          rcases List.mem_map.mp hT' with ⟨q, hq, hqe⟩
          subst hqe
          rcases List.mem_append.mp hq with hqo | hqn
          · exact Or.inr (mem_liveIds_timers (List.mem_map_of_mem _ hqo))
          · have hqj : q = (st.now + 2 ^ (j.attempts + 1) * 1000, noHandlerRetryJob st j) :=
              List.mem_singleton.mp hqn
            subst hqj
            refine Or.inl ?_
            simp [noHandlerRetryJob]
        · exact Or.inr (mem_liveIds_pending hpd)
    · rcases liveIds_cases hi with hj | hP | hT | hpd
      · exact Or.inl hj
      · exact Or.inr (mem_liveIds_processing hP)
      · exact Or.inr (mem_liveIds_timers hT)
      · exact Or.inr (mem_liveIds_pending hpd)

end JobQueue

namespace JobQueue

/-- `add` can introduce only the freshly minted id into the live
components. -/
theorem add_liveIds (st : QueueState) (ty d : String) (o : AddOptions) :
    ∀ i ∈ liveIds (add st ty d o), i = st.nextId ∨ i ∈ liveIds st := by
  intro i hi
  have hi' : i ∈ liveIds (processLoop (sortJobs (st.jobs ++ [mkJob st ty d o]))
      { st with
        jobs := sortJobs (st.jobs ++ [mkJob st ty d o])
        nextId := st.nextId + 1 }) := hi
  have hsorted : ∀ h : i ∈ (sortJobs (st.jobs ++ [mkJob st ty d o])).map Job.id,
      i = st.nextId ∨ i ∈ liveIds st := by
    intro h
    have hl' : i ∈ (st.jobs ++ [mkJob st ty d o]).map Job.id :=
      ((sortJobs_perm _).map Job.id).mem_iff.mp h
    rcases List.mem_map.mp hl' with ⟨q, hq, hqe⟩
    subst hqe
    rcases List.mem_append.mp hq with hqo | hqn
    · exact Or.inr (mem_liveIds_jobs (List.mem_map_of_mem _ hqo))
    · have : q = mkJob st ty d o := List.mem_singleton.mp hqn
      subst this
      exact Or.inl rfl
  rcases processLoop_liveIds _ _ i hi' with hl | hlive
  · exact hsorted hl
  · rcases liveIds_cases hlive with hj | hP | hT | hpd
    · exact hsorted hj
    · exact Or.inr (mem_liveIds_processing hP)
    · exact Or.inr (mem_liveIds_timers hT)
    · exact Or.inr (mem_liveIds_pending hpd)

/-- A timer firing introduces no new id into the live components. -/
theorem timerFired_liveIds (st : QueueState) (id : Nat) :
    ∀ i ∈ liveIds (timerFired st id), i ∈ liveIds st := by
  intro i hi
  unfold timerFired at hi
  rcases hf : st.timers.find? (fun p => p.2.id == id) with _ | p
  · rw [hf] at hi
    exact hi
  · rw [hf] at hi
    have hp : p ∈ st.timers := List.mem_of_find?_eq_some hf
    have hcons : ∀ h : i ∈ ({ p.2 with delay := 0 } :: st.jobs).map Job.id,
        i ∈ liveIds st := by
      intro h
      rcases List.mem_map.mp h with ⟨q, hq, hqe⟩
      subst hqe
      rcases List.mem_cons.mp hq with hq0 | hqr
      · subst hq0
        exact mem_liveIds_timers (List.mem_map_of_mem _ hp)
      · exact mem_liveIds_jobs (List.mem_map_of_mem _ hqr)
    have hi' : i ∈ liveIds (processLoop ({ p.2 with delay := 0 } :: st.jobs)
        { st with
          timers := st.timers.filter (fun q => q.2.id ≠ id)
          jobs := { p.2 with delay := 0 } :: st.jobs }) := hi
    rcases processLoop_liveIds _ _ i hi' with hl | hlive
    · exact hcons hl
    · rcases liveIds_cases hlive with hj | hP | hT | hpd
      · exact hcons hj
      · exact mem_liveIds_processing hP
      · have hT' : i ∈ (st.timers.filter (fun q => q.2.id ≠ id)).map
            (fun p => p.2.id) := hT
        rcases List.mem_map.mp hT' with ⟨q, hq, hqe⟩
        subst hqe
        exact mem_liveIds_timers (List.mem_map_of_mem _ (List.mem_of_mem_filter hq))
      · exact mem_liveIds_pending hpd

/-- A handler settling introduces no new id into the live components. -/
theorem handlerResolved_liveIds (env : HandlerEnv) (st : QueueState) (id : Nat) :
    ∀ i ∈ liveIds (handlerResolved env st id), i ∈ liveIds st := by
  intro i hi
  rcases hf : st.processing.find? (fun j => j.id == id) with _ | j
  · rw [handlerResolved, hf] at hi
    exact hi
  · have hjmem : j ∈ st.processing := List.mem_of_find?_eq_some hf
    have hfilterP : ∀ h : i ∈ (st.processing.filter (fun k => k.id ≠ id)).map Job.id,
        i ∈ liveIds st := by
      intro h
      rcases List.mem_map.mp h with ⟨q, hq, hqe⟩
      subst hqe
      exact mem_liveIds_processing (List.mem_map_of_mem _ (List.mem_of_mem_filter hq))
    have hfilterPend : ∀ h : i ∈ st.pending.filter (fun k => k ≠ id), i ∈ liveIds st :=
      fun h => mem_liveIds_pending (List.mem_of_mem_filter h)
    by_cases hs : env.succeeds j.jobType j.attempts
    · have he : handlerResolved env st id = startProcessing
          { st with
            processing := st.processing.filter (fun k => k.id ≠ id)
            pending := st.pending.filter (fun i => i ≠ id)
            completed := st.completed ++ [completedJob env st j] } := by
        simp [handlerResolved, hf, hs]
      rw [he] at hi
      rcases processLoop_liveIds _ _ i hi with hl | hlive
      · exact mem_liveIds_jobs hl
      · rcases liveIds_cases hlive with hj | hP | hT | hpd
        · exact mem_liveIds_jobs hj
        · exact hfilterP hP
        · exact mem_liveIds_timers hT
        · exact hfilterPend hpd
    · by_cases hm : j.maxAttempts ≤ j.attempts + 1
      · have he : handlerResolved env st id = startProcessing
            { st with
              processing := st.processing.filter (fun k => k.id ≠ id)
              pending := st.pending.filter (fun i => i ≠ id)
              failed := st.failed ++ [failedJob env st j] } := by
          simp [handlerResolved, hf, hs, hm]
        rw [he] at hi
        rcases processLoop_liveIds _ _ i hi with hl | hlive
        · exact mem_liveIds_jobs hl
        · rcases liveIds_cases hlive with hj | hP | hT | hpd
          · exact mem_liveIds_jobs hj
          · exact hfilterP hP
          · exact mem_liveIds_timers hT
          · exact hfilterPend hpd
      · have he : handlerResolved env st id = startProcessing
            { st with
              processing := st.processing.filter (fun k => k.id ≠ id)
              pending := st.pending.filter (fun i => i ≠ id)
              jobs := retryJob env st j :: st.jobs } := by
          simp [handlerResolved, hf, hs, hm]
        rw [he] at hi
        have hcons : ∀ h : i ∈ (retryJob env st j :: st.jobs).map Job.id,
            i ∈ liveIds st := by
          intro h
          rcases List.mem_map.mp h with ⟨q, hq, hqe⟩
          subst hqe
          rcases List.mem_cons.mp hq with hq0 | hqr
          · subst hq0
            exact mem_liveIds_processing
              (by simpa [retryJob] using List.mem_map_of_mem Job.id hjmem)
          · exact mem_liveIds_jobs (List.mem_map_of_mem _ hqr)
        rcases processLoop_liveIds _ _ i hi with hl | hlive
        · exact hcons hl
        · rcases liveIds_cases hlive with hj | hP | hT | hpd
          · exact hcons hj
          · exact hfilterP hP
          · exact mem_liveIds_timers hT
          · exact hfilterPend hpd

end JobQueue

namespace JobQueue

/-- Two members of a list with duplicate-free images under `f` that agree
under `f` are the same member. -/
theorem eq_of_nodup_map {α β : Type} (f : α → β) (L : List α) :
    (L.map f).Nodup → ∀ x ∈ L, ∀ y ∈ L, f x = f y → x = y := by
  induction L with
  | nil =>
    intro _ x hx
    exact absurd hx (List.not_mem_nil x)
  | cons z R ih =>
    intro hnd x hx y hy hfe
    have hnd' : (f z :: R.map f).Nodup := by simpa using hnd
    have hp := List.nodup_cons.mp hnd'
    rcases List.mem_cons.mp hx with hxz | hxR <;> rcases List.mem_cons.mp hy with hyz | hyR
    · rw [hxz, hyz]
    · subst hxz
      exact absurd (by rw [hfe]; exact List.mem_map_of_mem f hyR) hp.1
    · subst hyz
      exact absurd (by rw [← hfe]; exact List.mem_map_of_mem f hxR) hp.1
    · exact ih hp.2 x hxR y hyR hfe

/-- A terminally retired job record `x`: it sits in the failed array (or
its id has been swept away entirely), its id is in none of the live
components the scheduler draws from, and its id is below the id counter,
so no later `add` can mint it again.  This is the state-level meaning of
"never scheduled again and never mutated again". -/
def Retired (x : Job) (st : QueueState) : Prop :=
  (x ∈ st.failed ∨ x.id ∉ allIds st) ∧ x.id ∉ liveIds st ∧ x.id < st.nextId

/-- Being retired is preserved by every queue transition: the record is
still in the failed array with all its fields intact (unless `cleanup`
dropped it, after which the id is gone from the queue altogether), and the
id never re-enters the live components. -/
theorem step_retired {env : HandlerEnv} {okAdd : QueueState → String → AddOptions → Prop}
    {st st' : QueueState} {x : Job} (hs : Step env okAdd st st') (hinv : InvCore st)
    (hx : Retired x st) : Retired x st' := by
  obtain ⟨hloc, hlive, hfr⟩ := hx
  have hfr' : x.id < st'.nextId := lt_of_lt_of_le hfr (step_nextId_mono hs)
  have hnotin' : x.id ∉ allIds st → x.id ∉ allIds st' := by
    intro hni hm
    rcases step_ids_sub hs hinv x.id hm with he | hold
    · exact Nat.lt_irrefl _ (he ▸ hfr)
    · exact hni hold
  have hlive' : x.id ∉ liveIds st' := by
    cases hs with
    | register ty => exact hlive
    | enqueue ty d o hok =>
      intro hm
      rcases add_liveIds st ty d o x.id hm with he | hm'
      · exact Nat.lt_irrefl _ (he ▸ hfr)
      · exact hlive hm'
    | timer p hmem hdue => exact fun hm => hlive (timerFired_liveIds st p.2.id x.id hm)
    | settle id hmem => exact fun hm => hlive (handlerResolved_liveIds env st id x.id hm)
    | tick dt => exact hlive
    | sweep maxAge => exact hlive
  refine ⟨?_, hlive', hfr'⟩
  rcases hloc with hfail | hni
  · cases hs with
    | register ty => exact Or.inl hfail
    | tick dt => exact Or.inl hfail
    | enqueue ty d o hok =>
      refine Or.inl ?_
      have hpre : st.failed <+: (add st ty d o).failed := by
        show st.failed <+: (processLoop (sortJobs (st.jobs ++ [mkJob st ty d o]))
          { st with
            jobs := sortJobs (st.jobs ++ [mkJob st ty d o])
            nextId := st.nextId + 1 }).failed
        exact processLoop_failed_grows (sortJobs (st.jobs ++ [mkJob st ty d o]))
          { st with
            jobs := sortJobs (st.jobs ++ [mkJob st ty d o])
            nextId := st.nextId + 1 }
      exact hpre.subset hfail
    | timer p hmem hdue =>
      refine Or.inl ?_
      rcases hf : st.timers.find? (fun q => q.2.id == p.2.id) with _ | q
      · have heq : timerFired st p.2.id = st := by simp [timerFired, hf]
        rw [heq]
        exact hfail
      · have heq : timerFired st p.2.id = startProcessing
            { st with
              timers := st.timers.filter (fun r => r.2.id ≠ p.2.id)
              jobs := { q.2 with delay := 0 } :: st.jobs } := by
          simp [timerFired, hf]
        rw [heq]
        exact (processLoop_failed_grows _ _).subset hfail
    | settle id hmem =>
      refine Or.inl ?_
      rcases hf : st.processing.find? (fun j => j.id == id) with _ | j
      · have heq : handlerResolved env st id = st := by simp [handlerResolved, hf]
        rw [heq]
        exact hfail
      · by_cases hsuc : env.succeeds j.jobType j.attempts
        · have heq : handlerResolved env st id = startProcessing
              { st with
                processing := st.processing.filter (fun k => k.id ≠ id)
                pending := st.pending.filter (fun i => i ≠ id)
                completed := st.completed ++ [completedJob env st j] } := by
            simp [handlerResolved, hf, hsuc]
          rw [heq]
          exact (processLoop_failed_grows _ _).subset hfail
        · by_cases hmx : j.maxAttempts ≤ j.attempts + 1
          · have heq : handlerResolved env st id = startProcessing
                { st with
                  processing := st.processing.filter (fun k => k.id ≠ id)
                  pending := st.pending.filter (fun i => i ≠ id)
                  failed := st.failed ++ [failedJob env st j] } := by
              simp [handlerResolved, hf, hsuc, hmx]
            rw [heq]
            exact (processLoop_failed_grows _ _).subset (List.mem_append_left _ hfail)
          · have heq : handlerResolved env st id = startProcessing
                { st with
                  processing := st.processing.filter (fun k => k.id ≠ id)
                  pending := st.pending.filter (fun i => i ≠ id)
                  jobs := retryJob env st j :: st.jobs } := by
              simp [handlerResolved, hf, hsuc, hmx]
            rw [heq]
            exact (processLoop_failed_grows _ _).subset hfail
    | sweep maxAge =>
      by_cases hkeep : x ∈ (cleanup st maxAge).2.failed
      · exact Or.inl hkeep
      · refine Or.inr ?_
        intro hm
        have hn := hinv.nodup
        simp only [looseJobs, List.map_append] at hn
        have hn1 := hn.of_append_left
        have hdisj := (List.nodup_append.mp hn1).2.2
        have hFnd := hn1.of_append_right
        have hm' : x.id ∈ (st.jobs ++ st.processing ++
            st.completed.filter (fun j => timeGeB j.completedAt (st.now - maxAge)) ++
            st.failed.filter (fun j => timeGeB j.failedAt (st.now - maxAge)) ++
            st.timers.map Prod.snd).map Job.id := hm
        simp only [List.map_append, List.mem_append] at hm'
        rcases hm' with (((hJ | hP) | hC) | hF) | hT
        · exact hlive (mem_liveIds_jobs hJ)
        · exact hlive (mem_liveIds_processing hP)
        · obtain ⟨y, hy, hyi⟩ := List.mem_map.mp hC
          have hyC : y ∈ st.completed := List.mem_of_mem_filter hy
          exact hdisj
            (List.mem_append_right _ (hyi ▸ List.mem_map_of_mem Job.id hyC))
            (List.mem_map_of_mem Job.id hfail)
        · obtain ⟨y, hy, hyi⟩ := List.mem_map.mp hF
          have hyF : y ∈ st.failed := List.mem_of_mem_filter hy
          have hxy : x = y := eq_of_nodup_map Job.id st.failed hFnd x hfail y hyF hyi.symm
          exact hkeep (hxy.symm ▸ hy)
        · simp only [List.map_map] at hT
          exact hlive (mem_liveIds_timers hT)
  · exact Or.inr (hnotin' hni)

/-- Being retired persists along every reachable future. -/
theorem reachable_retired {env : HandlerEnv} {okAdd : QueueState → String → AddOptions → Prop}
    {st st' : QueueState} {x : Job}
    (hr : Reachable env okAdd st st') (h : InvCore st ∧ Retired x st) :
    InvCore st' ∧ Retired x st' := by
  induction hr with
  | refl => exact h
  | tail hab hbc ih => exact ⟨step_inv hbc ih.1, step_retired hbc ih.1 ih.2⟩

end JobQueue

/-- C6 counterexample: with `maxAttempts: 0` passed in options (which the
`...options` spread honours, cf. C9), the first rejection is already
terminal (`attempts + 1 >= maxAttempts` holds as `1 >= 0`), so the job
lands in the failed array with `attempts = 1` while `maxAttempts = 0`:
the claimed postcondition `attempts = maxAttempts` fails. -/
theorem c6_counterexample :
    (handlerResolved envFail
        (add (process (initQueue "q" 1) "t") "t" "d"
          { maxAttempts := some 0 }) 0).failed.map
      (fun j => (j.status, j.attempts, j.maxAttempts, j.failedAt.isSome)) =
      [(Status.failed, 1, 0, true)] ∧
    ¬ ((handlerResolved envFail
        (add (process (initQueue "q" 1) "t") "t" "d"
          { maxAttempts := some 0 }) 0).failed.map
      (fun j => decide (j.attempts = j.maxAttempts)) = [true]) := by
  decide

/-- C6 amended: a job whose handler rejects on every invocation ends in the
failed array with `status = failed`, `failedAt` set and
`attempts = max maxAttempts 1` (equal to `maxAttempts` whenever
`maxAttempts >= 1`; the first rejection is already terminal when
`maxAttempts = 0`, leaving `attempts = 1`).  From that point on, along
every reachable future of the queue, the full record sits unmutated in the
failed array until `cleanup` removes its id from the queue altogether, and
its id never re-enters the waiting array, the processing array, a pending
timer or a pending handler await — it is never scheduled again. -/
theorem c6_amended (maxA : Nat) :
    Reachable envFail anyAdd (initQueue "q" 1)
      (failDoneState maxA) ∧
    (failDoneState maxA).failed.map
      (fun j => (j.status, j.attempts, j.failedAt.isSome)) =
      [(Status.failed, max maxA 1, true)] ∧
    (∀ st', Reachable envFail anyAdd
        (failDoneState maxA) st' →
      (failDoneJob maxA ∈ st'.failed ∨
        (failDoneJob maxA).id ∉ allIds st') ∧
      (failDoneJob maxA).id ∉ liveIds st') := by
  have hreach : Reachable envFail anyAdd
      (initQueue "q" 1) (failDoneState maxA) := by
    have hr := retryProc_reachable envFail maxA (maxA - 1)
      (fun m hm => rfl) (fun m hm => rfl) (fun m hm => by omega)
    have h2 := hr.tail (Step.settle _ 0 (by simp [retryProcState]))
    rwa [failDone_eq envFail maxA rfl rfl] at h2
  refine ⟨hreach, ?_, ?_⟩
  · have hmx : maxA - 1 + 1 = max maxA 1 := by omega
    simp [failDoneState, failDoneJob, hmx]
  · intro st' hst'
    have hinvF : InvCore (failDoneState maxA) :=
      reachable_inv hreach
    have hret : Retired (failDoneJob maxA)
        (failDoneState maxA) := by
      refine ⟨Or.inl (by simp [failDoneState]), ?_, ?_⟩
      · simp [liveIds, failDoneState]
      · simp [failDoneState, failDoneJob]
    have hres := reachable_retired hst' ⟨hinvF, hret⟩
    exact ⟨hres.2.1, hres.2.2.1⟩

namespace JobQueue

theorem startProcessing_processing_grows (st : QueueState) :
    st.processing <+: (startProcessing st).processing :=
  processLoop_processing_grows st.jobs st

theorem startProcessing_completed (st : QueueState) :
    (startProcessing st).completed = st.completed :=
  processLoop_completed st.jobs st

theorem startProcessing_failed_grows (st : QueueState) :
    st.failed <+: (startProcessing st).failed :=
  processLoop_failed_grows st.jobs st

/-- One unfolding of the dispatch loop when there is capacity and the head
job carries a positive delay: the head moves into a timer due `delay` ms
from now and the loop continues with the rest. -/
theorem processLoop_cons_delayed (j : Job) (rest : List Job) (st : QueueState)
    (hcap : st.processing.length < st.concurrency) (hd : 0 < j.delay) :
    processLoop (j :: rest) st =
      processLoop rest { st with timers := st.timers ++ [(st.now + j.delay, j)] } := by
  simp only [processLoop]
  rw [if_pos hcap, if_pos hd]

/-- In a wellformed state, a record sitting in the failed array is what
`getJob` returns for its id. -/
theorem getJob_eq_of_mem_failed (st : QueueState) (h : InvCore st) (x : Job) (i : Nat)
    (hx : x ∈ st.failed) (hid : x.id = i) : getJob st i = some x := by
  have hn := h.nodup
  have hsub : List.Sublist (st.jobs ++ st.processing ++ st.completed ++ st.failed)
      (looseJobs st.jobs st) := List.sublist_append_left _ _
  have hnd : ((st.jobs ++ st.processing ++ st.completed ++ st.failed).map Job.id).Nodup :=
    hn.sublist (hsub.map Job.id)
  exact find_eq_some_of_mem _ x i hnd (List.mem_append_right _ hx) hid

end JobQueue

/-- C8: a handler rejection is contained to the rejected job.  The settle
transition is a total state update (nothing propagates to the caller of
`add`, which already returned when the job was dispatched): every other
in-flight job stays in the processing array, the completed array is
untouched, previously failed jobs are kept, and the set of job ids owned
by the queue is unchanged, so no waiting or delayed job is lost.  The
error is reflected only in the settled job's record: on a terminal
rejection the record moves to the failed array with `status = failed`,
`failedAt` stamped and the error message in `error`/`errorStack`, and
`getJob` returns exactly that record; on a non-terminal rejection the
record is re-captured in a backoff timer with `status = waiting` and the
same error fields set. -/
theorem c8_containment (env : HandlerEnv) (st : QueueState) (id : Nat) (j : Job)
    (hinv : InvCore st)
    (hfind : st.processing.find? (fun k => k.id == id) = some j)
    (hfailenv : env.succeeds j.jobType j.attempts = false) :
    (∀ k ∈ st.processing, k.id ≠ id → k ∈ (handlerResolved env st id).processing) ∧
    (handlerResolved env st id).completed = st.completed ∧
    (∀ x ∈ st.failed, x ∈ (handlerResolved env st id).failed) ∧
    (∀ i : Nat, i ∈ allIds (handlerResolved env st id) ↔ i ∈ allIds st) ∧
    (j.maxAttempts ≤ j.attempts + 1 →
      failedJob env st j ∈ (handlerResolved env st id).failed ∧
      getJob (handlerResolved env st id) id = some (failedJob env st j) ∧
      (failedJob env st j).status = Status.failed ∧
      (failedJob env st j).failedAt = some st.now ∧
      (failedJob env st j).error = some (env.errorOf j.jobType j.attempts) ∧
      (failedJob env st j).errorStack = some (env.errorOf j.jobType j.attempts)) ∧
    (j.attempts + 1 < j.maxAttempts →
      (st.now + 2 ^ (j.attempts + 1) * 1000, retryJob env st j) ∈
        (handlerResolved env st id).timers ∧
      (retryJob env st j).status = Status.waiting ∧
      (retryJob env st j).error = some (env.errorOf j.jobType j.attempts) ∧
      (retryJob env st j).errorStack = some (env.errorOf j.jobType j.attempts)) := by
  have hjmem : j ∈ st.processing := List.mem_of_find?_eq_some hfind
  have hjid : j.id = id := by simpa using List.find?_some hfind
  have hids : ∀ i : Nat, i ∈ allIds (handlerResolved env st id) ↔ i ∈ allIds st :=
    fun i => (handlerResolved_ids_perm env st id hinv).mem_iff
  have hinv' : InvCore (handlerResolved env st id) := inv_handlerResolved env st id hinv
  by_cases hm : j.maxAttempts ≤ j.attempts + 1
  · have he : handlerResolved env st id = startProcessing
        { st with
          processing := st.processing.filter (fun k => k.id ≠ id)
          pending := st.pending.filter (fun i => i ≠ id)
          failed := st.failed ++ [failedJob env st j] } := by
      simp [handlerResolved, hfind, hfailenv, hm]
    rw [he] at hinv' ⊢
    refine ⟨?_, ?_, ?_, fun i => he ▸ hids i, ?_, ?_⟩
    · intro k hk hkid
      refine (startProcessing_processing_grows _).subset ?_
      exact List.mem_filter.mpr ⟨hk, by simp [hkid]⟩
    · exact startProcessing_completed _
    · intro x hx
      exact (startProcessing_failed_grows _).subset (List.mem_append_left _ hx)
    · intro _
      refine ⟨?_, ?_, rfl, rfl, rfl, rfl⟩
      · exact (startProcessing_failed_grows _).subset
          (List.mem_append_right _ (List.mem_singleton_self _))
      · refine getJob_eq_of_mem_failed _ hinv' _ _ ?_ hjid
        exact (startProcessing_failed_grows _).subset
          (List.mem_append_right _ (List.mem_singleton_self _))
    · intro habs
      exact absurd hm (by omega)
  · have he : handlerResolved env st id = startProcessing
        { st with
          processing := st.processing.filter (fun k => k.id ≠ id)
          pending := st.pending.filter (fun i => i ≠ id)
          jobs := retryJob env st j :: st.jobs } := by
      simp [handlerResolved, hfind, hfailenv, hm]
    rw [he] at hinv' ⊢
    refine ⟨?_, ?_, ?_, fun i => he ▸ hids i, ?_, ?_⟩
    · intro k hk hkid
      refine (startProcessing_processing_grows _).subset ?_
      exact List.mem_filter.mpr ⟨hk, by simp [hkid]⟩
    · exact startProcessing_completed _
    · intro x hx
      exact (startProcessing_failed_grows _).subset hx
    · intro hterm
      exact absurd hterm hm
    · intro hlt
      refine ⟨?_, rfl, rfl, rfl⟩
      have hpnd : (st.processing.map Job.id).Nodup := by
        have hn := hinv.nodup
        simp only [looseJobs, List.map_append] at hn
        exact hn.of_append_left.of_append_left.of_append_left.of_append_right
      have hP : List.Perm st.processing
          (j :: st.processing.filter (fun k => k.id ≠ id)) := by
        have h3 := nodup_filter_ne_perm (fun k : Job => k.id) st.processing j hjmem hpnd
        beta_reduce at h3
        rwa [hjid] at h3
      have hlen : st.processing.length =
          (st.processing.filter (fun k => k.id ≠ id)).length + 1 := by
        have hle := hP.length_eq
        simpa using hle
      have hcap : (st.processing.filter (fun k => k.id ≠ id)).length < st.concurrency := by
        have hb := hinv.procBound
        omega
      have hd : 0 < (retryJob env st j).delay := by
        show (0:Nat) < 2 ^ (j.attempts + 1) * 1000
        positivity
      have hone : startProcessing
          { st with
            processing := st.processing.filter (fun k => k.id ≠ id)
            pending := st.pending.filter (fun i => i ≠ id)
            jobs := retryJob env st j :: st.jobs } =
          processLoop st.jobs
            { st with
              processing := st.processing.filter (fun k => k.id ≠ id)
              pending := st.pending.filter (fun i => i ≠ id)
              jobs := retryJob env st j :: st.jobs
              timers := st.timers ++
                [(st.now + (retryJob env st j).delay, retryJob env st j)] } :=
        processLoop_cons_delayed (retryJob env st j) st.jobs _ hcap hd
      rw [hone]
      refine (processLoop_timers_grows _ _).subset ?_
      refine List.mem_append_right _ ?_
      exact List.mem_singleton.mpr rfl

namespace JobQueue

/-- The record in flight in the C8 witness queue. -/
def c8WitJob : Job :=
  { id := 0
    jobType := "t"
    data := "d"
    status := Status.processing
    priority := 0
    attempts := 0
    maxAttempts := 3
    delay := 0
    createdAt := 0
    startedAt := some 0 }

end JobQueue

/-- Witness for C8: the concrete queue `add(process(initQueue "q" 2, "t"),
"t", "d", {})` with the always-rejecting handlers, settling job 0. -/
theorem c8_witness :
    InvCore (add (process (initQueue "q" 2) "t") "t" "d" {}) ∧
    (add (process (initQueue "q" 2) "t") "t" "d" {}).processing.find?
        (fun k => k.id == 0) = some c8WitJob ∧
    envFail.succeeds c8WitJob.jobType c8WitJob.attempts = false ∧
    ((∀ k ∈ (add (process (initQueue "q" 2) "t") "t" "d" {}).processing, k.id ≠ 0 →
        k ∈ (handlerResolved envFail (add (process (initQueue "q" 2) "t") "t" "d" {})
          0).processing) ∧
     (handlerResolved envFail (add (process (initQueue "q" 2) "t") "t" "d" {}) 0).completed =
        (add (process (initQueue "q" 2) "t") "t" "d" {}).completed ∧
     (∀ x ∈ (add (process (initQueue "q" 2) "t") "t" "d" {}).failed,
        x ∈ (handlerResolved envFail (add (process (initQueue "q" 2) "t") "t" "d" {})
          0).failed) ∧
     (∀ i : Nat, i ∈ allIds (handlerResolved envFail
          (add (process (initQueue "q" 2) "t") "t" "d" {}) 0) ↔
        i ∈ allIds (add (process (initQueue "q" 2) "t") "t" "d" {})) ∧
     (c8WitJob.maxAttempts ≤ c8WitJob.attempts + 1 →
       failedJob envFail (add (process (initQueue "q" 2) "t") "t" "d" {}) c8WitJob ∈
         (handlerResolved envFail (add (process (initQueue "q" 2) "t") "t" "d" {}) 0).failed ∧
       getJob (handlerResolved envFail (add (process (initQueue "q" 2) "t") "t" "d" {}) 0) 0 =
         some (failedJob envFail (add (process (initQueue "q" 2) "t") "t" "d" {}) c8WitJob) ∧
       (failedJob envFail (add (process (initQueue "q" 2) "t") "t" "d" {}) c8WitJob).status =
         Status.failed ∧
       (failedJob envFail (add (process (initQueue "q" 2) "t") "t" "d" {}) c8WitJob).failedAt =
         some (add (process (initQueue "q" 2) "t") "t" "d" {}).now ∧
       (failedJob envFail (add (process (initQueue "q" 2) "t") "t" "d" {}) c8WitJob).error =
         some (envFail.errorOf c8WitJob.jobType c8WitJob.attempts) ∧
       (failedJob envFail (add (process (initQueue "q" 2) "t") "t" "d" {})
         c8WitJob).errorStack =
         some (envFail.errorOf c8WitJob.jobType c8WitJob.attempts)) ∧
     (c8WitJob.attempts + 1 < c8WitJob.maxAttempts →
       ((add (process (initQueue "q" 2) "t") "t" "d" {}).now +
           2 ^ (c8WitJob.attempts + 1) * 1000,
         retryJob envFail (add (process (initQueue "q" 2) "t") "t" "d" {}) c8WitJob) ∈
         (handlerResolved envFail (add (process (initQueue "q" 2) "t") "t" "d" {}) 0).timers ∧
       (retryJob envFail (add (process (initQueue "q" 2) "t") "t" "d" {}) c8WitJob).status =
         Status.waiting ∧
       (retryJob envFail (add (process (initQueue "q" 2) "t") "t" "d" {}) c8WitJob).error =
         some (envFail.errorOf c8WitJob.jobType c8WitJob.attempts) ∧
       (retryJob envFail (add (process (initQueue "q" 2) "t") "t" "d" {})
         c8WitJob).errorStack =
         some (envFail.errorOf c8WitJob.jobType c8WitJob.attempts))) := by
  have hinv : InvCore (add (process (initQueue "q" 2) "t") "t" "d" {}) :=
    inv_add _ "t" "d" {} (inv_process _ "t" (inv_init "q" 2))
  exact ⟨hinv, by decide, rfl,
    c8_containment envFail (add (process (initQueue "q" 2) "t") "t" "d" {}) 0 c8WitJob hinv
      (by decide) rfl⟩
